import Mathlib

/-!
Verification development for `crypto3`.

Shallow embedding of

* `zk/snark/knowledge_commitment/knowledge_commitment.hpp`
  (the pair type, its group operations and `batch_to_special_all_non_zeros`),
* `algebra/curves/detail/bls12/bls12_381/params.hpp` (curve constants),
* `algebra/fields/m31/base_field.hpp` (the field descriptor's modulus),
* `kdf/kdf2.hpp` (the key-derivation loop),
* `zk/snark/blueprint_variable.hpp` (variable and linear-combination vectors,
  `pb_packing_sum`),
* `zk/snark/components/hashes/hash_io.hpp` (the padding constructor of
  `digest_variable`).

The group types `T1`, `T2` of a knowledge commitment are template parameters
of the source; here they are a type together with a record of the member
functions the source calls on them.
-/

set_option autoImplicit false
set_option exponentiation.threshold 512

namespace nil.crypto3.zk.snark

/-- The members of a group type `T` (a template argument `T1` / `T2`) that
`knowledge_commitment.hpp` calls: `T::zero()`, `T::one()`, `operator+`,
`to_special()`, `is_zero()`, `operator==`, `number * T` and the static
`T::batch_to_special_all_non_zeros`, which rewrites a vector in place and is
therefore a function from the old vector to the new one.  `S` is the type of
multiprecision scalars. -/
structure group_ops (S : Type) (T : Type) where
  zero : T
  one : T
  add : T → T → T
  to_special : T → T
  is_zero : T → Bool
  eq : T → T → Bool
  scalar_mul : S → T → T
  batch_to_special_all_non_zeros : List T → List T

/-- A knowledge commitment is a pair `(g, h)` with `g` in `T1` and `h` in `T2`. -/
structure knowledge_commitment (T1 T2 : Type) where
  g : T1
  h : T2
deriving DecidableEq, Repr

namespace knowledge_commitment

variable {S T1 T2 : Type}

/-- Source: `operator+`. -/
def add (G1 : group_ops S T1) (G2 : group_ops S T2)
    (self other : knowledge_commitment T1 T2) : knowledge_commitment T1 T2 :=
  ⟨G1.add self.g other.g, G2.add self.h other.h⟩

/-- Source: `to_special()`. -/
def to_special (G1 : group_ops S T1) (G2 : group_ops S T2)
    (self : knowledge_commitment T1 T2) : knowledge_commitment T1 T2 :=
  ⟨G1.to_special self.g, G2.to_special self.h⟩

/-- Source: `is_zero()`. -/
def is_zero (G1 : group_ops S T1) (G2 : group_ops S T2)
    (self : knowledge_commitment T1 T2) : Bool :=
  G1.is_zero self.g && G2.is_zero self.h

/-- Source: `operator==`. -/
def eq (G1 : group_ops S T1) (G2 : group_ops S T2)
    (self other : knowledge_commitment T1 T2) : Bool :=
  G1.eq self.g other.g && G2.eq self.h other.h

/-- Source: `operator!=`. -/
def ne (G1 : group_ops S T1) (G2 : group_ops S T2)
    (self other : knowledge_commitment T1 T2) : Bool :=
  !(eq G1 G2 self other)

/-- Source: `zero()`. -/
def zero (G1 : group_ops S T1) (G2 : group_ops S T2) : knowledge_commitment T1 T2 :=
  ⟨G1.zero, G2.zero⟩

/-- Source: `one()`. -/
def one (G1 : group_ops S T1) (G2 : group_ops S T2) : knowledge_commitment T1 T2 :=
  ⟨G1.one, G2.one⟩

/-- Source: `operator*(number, knowledge_commitment)`. -/
def scalar_mul (G1 : group_ops S T1) (G2 : group_ops S T2)
    (lhs : S) (rhs : knowledge_commitment T1 T2) : knowledge_commitment T1 T2 :=
  ⟨G1.scalar_mul lhs rhs.g, G2.scalar_mul lhs rhs.h⟩

/-- First loop of the `g` pass (source lines 111-115): walk `vec` from index 0
and `emplace_back` every `g` that is not zero onto `g_vec`. -/
def collect_g (G1 : group_ops S T1) :
    List (knowledge_commitment T1 T2) → List T1 → List T1
  | [], g_vec => g_vec
  | kc :: rest, g_vec =>
    if !G1.is_zero kc.g then collect_g G1 rest (g_vec ++ [kc.g])
    else collect_g G1 rest g_vec

/-- Second loop of the `g` pass (source lines 121-128).  `g_it` is the
position of the iterator in `g_vec`; dereferencing it past the end of `g_vec`
has no defined result and is `none` here. -/
def write_g (G1 : group_ops S T1) (g_vec : List T1) (T1_zero_special : T1) :
    List (knowledge_commitment T1 T2) → Nat → Option (List (knowledge_commitment T1 T2))
  | [], _ => some []
  | kc :: rest, g_it =>
    if !G1.is_zero kc.g then
      match g_vec[g_it]? with
      | none => none
      | some x =>
        match write_g G1 g_vec T1_zero_special rest (g_it + 1) with
        | none => none
        | some out => some ({ kc with g := x } :: out)
    else
      match write_g G1 g_vec T1_zero_special rest g_it with
      | none => none
      | some out => some ({ kc with g := T1_zero_special } :: out)

/-- First loop of the `h` pass (source lines 136-140). -/
def collect_h (G2 : group_ops S T2) :
    List (knowledge_commitment T1 T2) → List T2 → List T2
  | [], h_vec => h_vec
  | kc :: rest, h_vec =>
    if !G2.is_zero kc.h then collect_h G2 rest (h_vec ++ [kc.h])
    else collect_h G2 rest h_vec

/-- Second loop of the `h` pass (source lines 146-153). -/
def write_h (G2 : group_ops S T2) (h_vec : List T2) (T2_zero_special : T2) :
    List (knowledge_commitment T1 T2) → Nat → Option (List (knowledge_commitment T1 T2))
  | [], _ => some []
  | kc :: rest, h_it =>
    if !G2.is_zero kc.h then
      match h_vec[h_it]? with
      | none => none
      | some x =>
        match write_h G2 h_vec T2_zero_special rest (h_it + 1) with
        | none => none
        | some out => some ({ kc with h := x } :: out)
    else
      match write_h G2 h_vec T2_zero_special rest h_it with
      | none => none
      | some out => some ({ kc with h := T2_zero_special } :: out)

/-- The vector handed to `T1::batch_to_special_all_non_zeros` (line 117). -/
def g_vec_passed (G1 : group_ops S T1) (vec : List (knowledge_commitment T1 T2)) : List T1 :=
  collect_g G1 vec []

/-- The `g` pass, lines 108-130: the new contents of `vec`. -/
def g_pass (G1 : group_ops S T1) (vec : List (knowledge_commitment T1 T2)) :
    Option (List (knowledge_commitment T1 T2)) :=
  let g_vec := G1.batch_to_special_all_non_zeros (g_vec_passed G1 vec)
  let T1_zero_special := G1.to_special G1.zero
  write_g G1 g_vec T1_zero_special vec 0

/-- The vector handed to `T2::batch_to_special_all_non_zeros` (line 142);
`vec` is the vector as the `g` pass left it. -/
def h_vec_passed (G2 : group_ops S T2) (vec : List (knowledge_commitment T1 T2)) : List T2 :=
  collect_h G2 vec []

/-- The `h` pass, lines 133-155. -/
def h_pass (G2 : group_ops S T2) (vec : List (knowledge_commitment T1 T2)) :
    Option (List (knowledge_commitment T1 T2)) :=
  let h_vec := G2.batch_to_special_all_non_zeros (h_vec_passed G2 vec)
  let T2_zero_special := G2.to_special G2.zero
  write_h G2 h_vec T2_zero_special vec 0

/-- Source: `knowledge_commitment::batch_to_special_all_non_zeros(vec)`; the
result is the contents of `vec` on return. -/
def batch_to_special_all_non_zeros (G1 : group_ops S T1) (G2 : group_ops S T2)
    (vec : List (knowledge_commitment T1 T2)) : Option (List (knowledge_commitment T1 T2)) :=
  match g_pass G1 vec with
  | none => none
  | some vec1 => h_pass G2 vec1

end knowledge_commitment

/-! ### Concrete group types used to instantiate `T1` and `T2` -/

/-- A point kept as an unnormalised fraction `(x, z)`; `z = 0` marks the
identity, whatever `x` is. -/
abbrev frac_point : Type := Nat × Nat

/-- Group members for `frac_point`: `to_special` divides out `z` and sends
every representative of the identity to `(0, 0)`; `operator==` compares by
cross-multiplication; the batch routine normalises element by element. -/
def frac_ops : group_ops Nat frac_point where
  zero := (0, 0)
  one := (1, 1)
  add := fun p q =>
    if p.2 == 0 then q else if q.2 == 0 then p else (p.1 * q.2 + q.1 * p.2, p.2 * q.2)
  to_special := fun p => if p.2 == 0 then (0, 0) else (p.1 / p.2, 1)
  is_zero := fun p => p.2 == 0
  eq := fun p q => (p.1 * q.2 == q.1 * p.2) && ((p.2 == 0) == (q.2 == 0))
  scalar_mul := fun n p => (n * p.1, p.2)
  batch_to_special_all_non_zeros := fun l =>
    l.map (fun p => if p.2 == 0 then (0, 0) else (p.1 / p.2, 1))

/-- A two-element vector: the first commitment has a zero `h`, the second a
zero `g` (given by the representative `(5, 0)`); neither commitment is zero. -/
def sample_vec : List (knowledge_commitment frac_point frac_point) :=
  [⟨(4, 2), (7, 0)⟩, ⟨(5, 0), (9, 3)⟩]

end nil.crypto3.zk.snark

namespace nil.crypto3.algebra

namespace fields

/-- Modelled from the spec: the modulus of `fields::bls12_base_field<381>`
(declared in `algebra/fields/bls12/base_field.hpp`, which is not among the
sources at hand), the BLS12-381 base-field prime. -/
def bls12_base_field_381_modulus : Nat :=
  0x1a0111ea397fe69a4b1ba7b6434bacd764774b84f38512bf6730d2a0f6b0f6241eabfffeb153ffffb9feffffffffaaab

/-- Modelled from the spec: construction of a prime-field element from an
integer literal (`value_type(n)` of `detail::element_fp`, not among the
sources at hand): the representative in `[0, p)`. -/
def fp_value (p n : Nat) : Nat := n % p

/-- Modelled from the spec: prime-field addition (`element_fp`), the sum
reduced modulo `p`. -/
def fp_add (p x y : Nat) : Nat := (x + y) % p

/-- Modelled from the spec: prime-field subtraction (`element_fp`). -/
def fp_sub (p x y : Nat) : Nat := (x + (p - y % p)) % p

/-- Modelled from the spec: prime-field multiplication (`element_fp`), the
product reduced modulo `p`. -/
def fp_mul (p x y : Nat) : Nat := (x * y) % p

/-- Modelled from the spec: an element `c0 + c1 * u` of the quadratic
extension `fields::fp2<base_field_type>` (`algebra/fields/fp2.hpp`, not among
the sources at hand), kept as its two base-field coefficients. -/
structure fp2_value where
  c0 : Nat
  c1 : Nat
deriving DecidableEq, Repr

/-- Modelled from the spec: addition in the quadratic extension,
coefficient by coefficient. -/
def fp2_add (p : Nat) (x y : fp2_value) : fp2_value :=
  ⟨fp_add p x.c0 y.c0, fp_add p x.c1 y.c1⟩

/-- Modelled from the spec: multiplication in the quadratic extension,
schoolbook polynomial multiplication reduced by `u^2 = -1`, the non-residue
of the BLS12-381 tower. -/
def fp2_mul (p : Nat) (x y : fp2_value) : fp2_value :=
  ⟨fp_sub p (fp_mul p x.c0 y.c0) (fp_mul p x.c1 y.c1),
   fp_add p (fp_mul p x.c0 y.c1) (fp_mul p x.c1 y.c0)⟩

/-- Modelled from the spec: the product of a base-field element and an
element of the quadratic extension (`underlying_type * value_type`). -/
def fp2_scale (p : Nat) (c : Nat) (x : fp2_value) : fp2_value :=
  ⟨fp_mul p c x.c0, fp_mul p c x.c1⟩

namespace m31_base_field

/-- Source: `m31_base_field::modulus`, the integer written in the literal
`0x7FFFFFFFF_cppui_modular32` (the source comment above it reads
`(1 << 31) - 1`).  The literal operator itself is not among the sources at
hand; `modulus` is the literal's digits read as a hexadecimal integer. -/
def modulus : Nat := 0x7FFFFFFFF

/-- Source: `policy_type::modulus_bits` of `field<32>`, the width of
`integral_type`. -/
def modulus_bits : Nat := 32

/-- Source: `group_order_minus_one_half = (modulus - 1u) / 2`. -/
def group_order_minus_one_half : Nat := (modulus - 1) / 2

end m31_base_field

end fields

namespace curves.detail

open fields

namespace bls12_short_weierstrass_params_381

/-- Source: `bls12_short_weierstrass_params<381>::a`. -/
def a : Nat := 0x00

/-- Source: `bls12_short_weierstrass_params<381>::b`. -/
def b : Nat := 0x04

end bls12_short_weierstrass_params_381

namespace bls12_short_weierstrass_g1_params_381

/-- Source: `bls12_short_weierstrass_g1_params<381, jacobian_with_a4_0>::one_fill`. -/
def one_fill : Fin 3 → Nat
  | 0 => fp_value bls12_base_field_381_modulus
      0x17F1D3A73197D7942695638C4FA9AC0FC3688C4F9774B905A14E3A3F171BAC586C55E83FF97A1AEFFB3AF00ADB22C6BB
  | 1 => fp_value bls12_base_field_381_modulus
      0x8B3F481E3AAA0F1A09E30ED741D8AE4FCF5E095D5D00AF600DB18CB2C04B3EDD03CC744A2888AE40CAA232946C5E7E1
  | 2 => fp_value bls12_base_field_381_modulus 1

end bls12_short_weierstrass_g1_params_381

namespace bls12_short_weierstrass_g2_params_381

/-- Source: `twist`, the element `1 + u`. -/
def twist : fp2_value :=
  ⟨fp_value bls12_base_field_381_modulus 1, fp_value bls12_base_field_381_modulus 1⟩

/-- Source: `g1_b`, the base-field element made from `b` of the base struct. -/
def g1_b : Nat := fp_value bls12_base_field_381_modulus bls12_short_weierstrass_params_381.b

/-- Source: `b = g1_b * twist`. -/
def b : fp2_value := fp2_scale bls12_base_field_381_modulus g1_b twist

/-- Source: `bls12_short_weierstrass_g2_params<381, jacobian_with_a4_0>::one_fill`. -/
def one_fill : Fin 3 → fp2_value
  | 0 =>
    ⟨fp_value bls12_base_field_381_modulus
      0x24AA2B2F08F0A91260805272DC51051C6E47AD4FA403B02B4510B647AE3D1770BAC0326A805BBEFD48056C8C121BDB8,
     fp_value bls12_base_field_381_modulus
      0x13E02B6052719F607DACD3A088274F65596BD0D09920B61AB5DA61BBDC7F5049334CF11213945D57E5AC7D055D042B7E⟩
  | 1 =>
    ⟨fp_value bls12_base_field_381_modulus
      0xCE5D527727D6E118CC9CDC6DA2E351AADFD9BAA8CBDD3A76D429A695160D12C923AC9CC3BACA289E193548608B82801,
     fp_value bls12_base_field_381_modulus
      0x606C4A02EA734CC32ACD2B02BC28B99CB3E287E85A763AF267492AB572E99AB3F370D275CEC1DA1AAA9075FF05F79BE⟩
  | 2 => ⟨fp_value bls12_base_field_381_modulus 1, fp_value bls12_base_field_381_modulus 0⟩

end bls12_short_weierstrass_g2_params_381

end curves.detail

end nil.crypto3.algebra

namespace nil.crypto3.zk.snark.knowledge_commitment

variable {T1 T2 : Type}

end nil.crypto3.zk.snark.knowledge_commitment

namespace nil.crypto3.algebra.curves.detail

open fields

namespace bls12_short_weierstrass_g1_params_381

/-- Source: member `a` inherited from `bls12_short_weierstrass_params<381>`
(public base of the struct). -/
def a : Nat := bls12_short_weierstrass_params_381.a

/-- Source: member `b` inherited from `bls12_short_weierstrass_params<381>`. -/
def b : Nat := bls12_short_weierstrass_params_381.b

/-- Source: `bls12_short_weierstrass_g1_params<381, jacobian_with_a4_0>::zero_fill`,
the array `{zero(), one(), zero()}`. -/
def zero_fill : Fin 3 → Nat
  | 0 => fp_value bls12_base_field_381_modulus 0
  | 1 => fp_value bls12_base_field_381_modulus 1
  | 2 => fp_value bls12_base_field_381_modulus 0

/-- Source: the two integer literals of `one_fill` as they are written, each
with the bit width of its `_cppui` suffix. -/
def one_fill_literals : List (Nat × Nat) :=
  [(0x17F1D3A73197D7942695638C4FA9AC0FC3688C4F9774B905A14E3A3F171BAC586C55E83FF97A1AEFFB3AF00ADB22C6BB,
      381),
   (0x8B3F481E3AAA0F1A09E30ED741D8AE4FCF5E095D5D00AF600DB18CB2C04B3EDD03CC744A2888AE40CAA232946C5E7E1,
      380)]

end bls12_short_weierstrass_g1_params_381

namespace bls12_short_weierstrass_g2_params_381

/-- Source: member `a` inherited from `bls12_short_weierstrass_params<381>`
(the struct declares its own `b`, not its own `a`). -/
def a : Nat := bls12_short_weierstrass_params_381.a

/-- Source: `bls12_short_weierstrass_g2_params<381, jacobian_with_a4_0>::zero_fill`,
the array `{zero(), one(), zero()}` of `Fp2` elements. -/
def zero_fill : Fin 3 → fp2_value
  | 0 => ⟨fp_value bls12_base_field_381_modulus 0, fp_value bls12_base_field_381_modulus 0⟩
  | 1 => ⟨fp_value bls12_base_field_381_modulus 1, fp_value bls12_base_field_381_modulus 0⟩
  | 2 => ⟨fp_value bls12_base_field_381_modulus 0, fp_value bls12_base_field_381_modulus 0⟩

/-- Source: the four integer literals of `one_fill` as they are written
(`x.c0`, `x.c1`, `y.c0`, `y.c1`), each with the bit width of its `_cppui`
suffix. -/
def one_fill_literals : List (Nat × Nat) :=
  [(0x24AA2B2F08F0A91260805272DC51051C6E47AD4FA403B02B4510B647AE3D1770BAC0326A805BBEFD48056C8C121BDB8,
      378),
   (0x13E02B6052719F607DACD3A088274F65596BD0D09920B61AB5DA61BBDC7F5049334CF11213945D57E5AC7D055D042B7E,
      381),
   (0xCE5D527727D6E118CC9CDC6DA2E351AADFD9BAA8CBDD3A76D429A695160D12C923AC9CC3BACA289E193548608B82801,
      380),
   (0x606C4A02EA734CC32ACD2B02BC28B99CB3E287E85A763AF267492AB572E99AB3F370D275CEC1DA1AAA9075FF05F79BE,
      379)]

end bls12_short_weierstrass_g2_params_381

end nil.crypto3.algebra.curves.detail

namespace nil.crypto3.kdf.kdf2

/-- Modelled from the spec: `update_be(counter)` of the hash object (the hash
interface is not among the sources at hand): the four bytes of the 32-bit
counter, most significant byte first. -/
def store_be32 (counter : Nat) : List Nat :=
  [counter / 2 ^ 24 % 256, counter / 2 ^ 16 % 256, counter / 2 ^ 8 % 256, counter % 256]

/-- Modelled from the spec: `copy_mem(&key[offset], h.data(), added)` (not
among the sources at hand): the first `added` bytes of `h` overwrite
`key[offset .. offset + added)`. -/
def copy_mem (key : List Nat) (offset : Nat) (h : List Nat) (added : Nat) : List Nat :=
  key.take offset ++ h.take added ++ key.drop (offset + added)

/-- The locals of `kdf2::process` that the loop changes, and the output
buffer `key`. -/
structure process_state where
  counter : Nat
  offset : Nat
  key : List Nat
deriving DecidableEq, Repr

/-- Source: the loop of `kdf2::process`, lines 44-54.  `Hash` is the digest
the hash object computes of the bytes fed to it between two calls of `final`;
`counter` is a `uint32_t`, so `counter++` wraps modulo `2^32`.  `fuel` bounds
the number of iterations; `none` says the loop is still running when it is
used up. -/
def process_loop (Hash : List Nat → List Nat) (secret label salt : List Nat) (key_len : Nat) :
    Nat → process_state → Option process_state
  | 0, st => if st.offset != key_len && st.counter != 0 then none else some st
  | fuel + 1, st =>
    if st.offset != key_len && st.counter != 0 then
      let h := Hash (secret ++ store_be32 st.counter ++ label ++ salt)
      let counter := (st.counter + 1) % 2 ^ 32
      let added := min h.length (key_len - st.offset)
      process_loop Hash secret label salt key_len fuel
        { counter := counter, offset := st.offset + added,
          key := copy_mem st.key st.offset h added }
    else some st

/-- Source: `kdf2::process`, lines 39-57, with the names the body uses but
does not declare (`secret`, `label`, `salt`, `key`, `key_len`, the hash
object) as arguments.  The loop can run at most `2^32 - 1` times before
`counter` wraps to `0`, so `2^32` bounds it. -/
def process (Hash : List Nat → List Nat) (secret label salt key : List Nat) (key_len : Nat) :
    Option process_state :=
  process_loop Hash secret label salt key_len (2 ^ 32) { counter := 1, offset := 0, key := key }

/-- The byte string `T(1) || T(2) || ... || T(n)` of KDF2 (IEEE 1363), with
`T(i) = Hash(secret || big-endian-32(i) || label || salt)`; written after the
claim, to be compared with `process`. -/
def kdf2_stream (Hash : List Nat → List Nat) (secret label salt : List Nat) (n : Nat) : List Nat :=
  ((List.range n).map (fun i => Hash (secret ++ store_be32 (i + 1) ++ label ++ salt))).flatten

/-- A four-byte "hash" for running `process` on an example: the length of its
input followed by the last three bytes of the input reversed (zero-padded). -/
def sample_hash (x : List Nat) : List Nat :=
  [x.length % 256, x.reverse.getD 0 0, x.reverse.getD 1 0, x.reverse.getD 2 0]

end nil.crypto3.kdf.kdf2

namespace nil.crypto3.zk.snark

open nil.crypto3.algebra.fields

/-! ### Blueprint variables and linear combinations

Field elements are canonical representatives in `[0, p)` of the prime field
with modulus `p`; `FieldType::value_type::zero()` is `fp_value p 0` and
`FieldType::value_type::one()` is `fp_value p 1`. -/

/-- Source: `for (std::size_t i = 0; i < n; ++i) body`, the body changing a
state. -/
def for_loop {σ : Type} (body : Nat → σ → σ) : Nat → σ → σ
  | 0, s => s
  | n + 1, s => body n (for_loop body n s)

/-- Source: `for (std::size_t i = 0; i < n; ++i) body`, for a body that can
fail (a failed `assert`); the failure ends the loop. -/
def for_loop_checked {σ : Type} (body : Nat → σ → Option σ) : Nat → σ → Option σ
  | 0, s => some s
  | n + 1, s =>
    match for_loop_checked body n s with
    | none => none
    | some s' => body n s'

/-- Source: `blueprint_variable<FieldType>`, a variable, which is its index
(default `0`). -/
structure blueprint_variable where
  index : Nat
deriving DecidableEq, Repr

instance : Inhabited blueprint_variable := ⟨⟨0⟩⟩

/-- Modelled from the spec: `linear_term<FieldType>` of
`relations/variable.hpp` (not among the sources at hand), a variable index
with a coefficient. -/
structure linear_term where
  index : Nat
  coeff : Nat
deriving DecidableEq, Repr

/-- Modelled from the spec: `field_coeff * term` of `relations/variable.hpp`,
the term with its coefficient multiplied by `field_coeff`. -/
def linear_term.scale (p : Nat) (field_coeff : Nat) (term : linear_term) : linear_term :=
  ⟨term.index, fp_mul p field_coeff term.coeff⟩

/-- Source: `blueprint_linear_combination<FieldType>`: the terms of the base
class, `is_variable` and `index`. -/
structure blueprint_linear_combination where
  terms : List linear_term
  is_variable : Bool
  index : Nat
deriving DecidableEq, Repr

instance : Inhabited blueprint_linear_combination := ⟨⟨[], false, 0⟩⟩

/-- Source: `blueprint_linear_combination(const blueprint_variable &var)`. -/
def blueprint_linear_combination.of_variable (p : Nat) (var : blueprint_variable) :
    blueprint_linear_combination :=
  ⟨[⟨var.index, fp_value p 1⟩], true, var.index⟩

/-- Modelled from the spec: the assignment kept by `blueprint<FieldType>`
(`blueprint.hpp` is not among the sources at hand): one field element for
every variable index and one for every index of a linear combination. -/
structure blueprint where
  values : Nat → Nat
  lc_values : Nat → Nat

/-- Modelled from the spec: reading `pb.val(var)`. -/
def blueprint.val (pb : blueprint) (var : blueprint_variable) : Nat :=
  pb.values var.index

/-- Modelled from the spec: the assignment `pb.val(var) = x`. -/
def blueprint.set_val (pb : blueprint) (var : blueprint_variable) (x : Nat) : blueprint :=
  { pb with values := Function.update pb.values var.index x }

/-- Modelled from the spec: reading `pb.lc_val(lc)`: the value of the
variable when `lc` is a variable, the value stored for the lc index
otherwise. -/
def blueprint.lc_val (pb : blueprint) (lc : blueprint_linear_combination) : Nat :=
  if lc.is_variable then pb.values lc.index else pb.lc_values lc.index

/-- Modelled from the spec: the assignment `pb.lc_val(lc) = x`. -/
def blueprint.set_lc_val (pb : blueprint) (lc : blueprint_linear_combination) (x : Nat) :
    blueprint :=
  if lc.is_variable then { pb with values := Function.update pb.values lc.index x }
  else { pb with lc_values := Function.update pb.lc_values lc.index x }

/-- Modelled from the spec: `boost::multiprecision::bit_test(r, i)` on a
field element, bit `i` of its canonical representative. -/
def bit_test (r i : Nat) : Bool := Nat.testBit r i

namespace blueprint_variable_vector

/-- Source: `blueprint_variable_vector::fill_with_bits`, lines 106-112.
`assertions` says whether `assert` is compiled in; a failed assertion is
`none`. -/
def fill_with_bits (p : Nat) (assertions : Bool) (self : List blueprint_variable)
    (pb : blueprint) (bits : List Bool) : Option blueprint :=
  if assertions && !(self.length == bits.length) then none
  else some (for_loop
    (fun i pb => pb.set_val self[i]! (if bits[i]! then fp_value p 1 else fp_value p 0))
    bits.length pb)

/-- Source: `blueprint_variable_vector::fill_with_bits_of_field_element`,
lines 118-124. -/
def fill_with_bits_of_field_element (p : Nat) (self : List blueprint_variable)
    (pb : blueprint) (r : Nat) : blueprint :=
  for_loop
    (fun i pb => pb.set_val self[i]! (if bit_test r i then fp_value p 1 else fp_value p 0))
    self.length pb

/-- Source: `blueprint_variable_vector::get_bits`, lines 134-142. -/
def get_bits (p : Nat) (assertions : Bool) (self : List blueprint_variable)
    (pb : blueprint) : Option (List Bool) :=
  for_loop_checked
    (fun i result =>
      let v := pb.val self[i]!
      if assertions && !(v == fp_value p 0 || v == fp_value p 1) then none
      else some (result ++ [v == fp_value p 1]))
    self.length []

/-- Source: `blueprint_variable_vector::get_field_element_from_bits`,
lines 144-155. -/
def get_field_element_from_bits (p : Nat) (assertions : Bool) (self : List blueprint_variable)
    (pb : blueprint) : Option Nat :=
  for_loop_checked
    (fun i result =>
      let v := pb.val self[self.length - 1 - i]!
      if assertions && !(v == fp_value p 0 || v == fp_value p 1) then none
      else some (fp_add p result (fp_add p result v)))
    self.length (fp_value p 0)

end blueprint_variable_vector

namespace blueprint_linear_combination_vector

/-- Source: `blueprint_linear_combination_vector::fill_with_bits`,
lines 275-281. -/
def fill_with_bits (p : Nat) (assertions : Bool) (self : List blueprint_linear_combination)
    (pb : blueprint) (bits : List Bool) : Option blueprint :=
  if assertions && !(self.length == bits.length) then none
  else some (for_loop
    (fun i pb => pb.set_lc_val self[i]! (if bits[i]! then fp_value p 1 else fp_value p 0))
    bits.length pb)

/-- Source: `blueprint_linear_combination_vector::get_bits`, lines 305-313:
both the assertion and the pushed bit compare `v` with `zero()`. -/
def get_bits (p : Nat) (assertions : Bool) (self : List blueprint_linear_combination)
    (pb : blueprint) : Option (List Bool) :=
  for_loop_checked
    (fun i result =>
      let v := pb.lc_val self[i]!
      if assertions && !(v == fp_value p 0 || v == fp_value p 0) then none
      else some (result ++ [v == fp_value p 0]))
    self.length []

end blueprint_linear_combination_vector

/-- Source: `pb_packing_sum`, lines 339-352: the vector `all_terms` handed to
the constructor of `linear_combination` (which is in `relations/variable.hpp`,
not among the sources at hand).  The state of the outer loop is
`(twoi, all_terms)`; `twoi` starts as `FieldType::value_type::zero()`. -/
def pb_packing_sum (p : Nat) (v : List blueprint_linear_combination) : List linear_term :=
  (v.foldl
    (fun (st : Nat × List linear_term) lc =>
      (fp_add p st.1 st.1,
       lc.terms.foldl (fun all_terms term => all_terms ++ [linear_term.scale p st.1 term]) st.2))
    (fp_value p 0, [])).2

/-- The terms of `sum over i of 2^i * v[i]`, every term of `v[i]` scaled by
`2^i`, in order; written after the claim and the source comment
"will hold 2^i entering each iteration", to be compared with
`pb_packing_sum`. -/
def packing_sum_terms (p : Nat) (v : List blueprint_linear_combination) : List linear_term :=
  (v.enum.map (fun ilc =>
    ilc.2.terms.map (fun term => linear_term.scale p (fp_value p (2 ^ ilc.1)) term))).flatten

/-- The outcome of running a constructor: it returned an object, an `assert`
failed, or it was still running when the allotted steps were used up. -/
inductive outcome (α : Type) where
  | returned (a : α)
  | assertion_failed
  | running
deriving DecidableEq, Repr

/-- Source: `digest_variable<FieldType>`: `digest_size` and `bits`. -/
structure digest_variable where
  digest_size : Nat
  bits : List blueprint_variable
deriving DecidableEq, Repr

namespace digest_variable

/-- Source: the loop `while (bits.size() != digest_size)
bits.emplace_back(padding);` of the padding constructor, lines 91-93;
`fuel` bounds the number of iterations and `none` says the loop is still
running when it is used up. -/
def pad_loop (digest_size : Nat) (padding : blueprint_variable) :
    Nat → List blueprint_variable → Option (List blueprint_variable)
  | 0, bits => if bits.length != digest_size then none else some bits
  | fuel + 1, bits =>
    if bits.length != digest_size then pad_loop digest_size padding fuel (bits ++ [padding])
    else some bits

/-- Source: the padding constructor `digest_variable(pb, digest_size,
partial_bits, padding)`, lines 82-94.  When the body starts, the member
`bits` is the empty vector it was default-constructed as; the assertion
reads the size of that member.  `assertions` says whether `assert` is
compiled in. -/
def padded (assertions : Bool) (fuel : Nat) (digest_size : Nat)
    (partial_bits : List blueprint_variable) (padding : blueprint_variable) :
    outcome digest_variable :=
  let bits : List blueprint_variable := []
  if assertions && !(decide (bits.length ≤ digest_size)) then outcome.assertion_failed
  else
    let bits := partial_bits
    match pad_loop digest_size padding fuel bits with
    | none => outcome.running
    | some bits => outcome.returned ⟨digest_size, bits⟩

end digest_variable

end nil.crypto3.zk.snark

/-! ## Theorems -/

namespace nil.crypto3.algebra.curves.detail

open fields

/-- C3: the BLS12-381 G1 generator `(one_fill[0], one_fill[1])` satisfies
`y^2 = x^3 + a*x + b` modulo the base-field prime, with the declared
`a = 0` and `b = 4`. -/
theorem g1_one_fill_on_curve :
    (bls12_short_weierstrass_g1_params_381.one_fill 1
        * bls12_short_weierstrass_g1_params_381.one_fill 1) % bls12_base_field_381_modulus
      = (bls12_short_weierstrass_g1_params_381.one_fill 0
            * bls12_short_weierstrass_g1_params_381.one_fill 0
            * bls12_short_weierstrass_g1_params_381.one_fill 0
          + bls12_short_weierstrass_params_381.a * bls12_short_weierstrass_g1_params_381.one_fill 0
          + bls12_short_weierstrass_params_381.b) % bls12_base_field_381_modulus
      ∧ bls12_short_weierstrass_params_381.a = 0 ∧ bls12_short_weierstrass_params_381.b = 4 := by
  decide

/-- C4: the BLS12-381 G2 generator `(one_fill[0], one_fill[1])`, read in
`Fp2 = Fp[u]/(u^2 + 1)`, satisfies `y^2 = x^3 + b` with `b = g1_b * twist`. -/
theorem g2_one_fill_on_curve :
    fp2_mul bls12_base_field_381_modulus
        (bls12_short_weierstrass_g2_params_381.one_fill 1)
        (bls12_short_weierstrass_g2_params_381.one_fill 1)
      = fp2_add bls12_base_field_381_modulus
          (fp2_mul bls12_base_field_381_modulus
            (fp2_mul bls12_base_field_381_modulus
              (bls12_short_weierstrass_g2_params_381.one_fill 0)
              (bls12_short_weierstrass_g2_params_381.one_fill 0))
            (bls12_short_weierstrass_g2_params_381.one_fill 0))
          bls12_short_weierstrass_g2_params_381.b := by
  decide

end nil.crypto3.algebra.curves.detail

namespace nil.crypto3.algebra.fields.m31_base_field

/-- C5: the integer written in the literal of `m31_base_field::modulus` is
`2^35 - 1 = 34359738367`; it is not `(1 << 31) - 1 = 2147483647`, and neither
is its reduction to the 32 bits of `integral_type`. -/
theorem modulus_ne_two_pow_31_sub_one :
    modulus = 2 ^ 35 - 1 ∧ modulus ≠ (1 <<< 31) - 1 ∧ modulus ≠ 2147483647
      ∧ modulus % 2 ^ modulus_bits ≠ 2147483647 := by
  decide

/-- C6: the integer written in the literal of `m31_base_field::modulus` is
odd but not prime (it is `31 * 1108378657`), and its reduction to the 32 bits
of `integral_type` is not prime either (it is `3 * 1431655765`). -/
theorem modulus_not_prime :
    modulus % 2 = 1 ∧ modulus = 31 * 1108378657 ∧ ¬ Nat.Prime modulus
      ∧ ¬ Nat.Prime (modulus % 2 ^ modulus_bits) := by
  refine ⟨by decide, by decide, ?_, ?_⟩
  · norm_num [modulus]
  · norm_num [modulus, modulus_bits]

end nil.crypto3.algebra.fields.m31_base_field

namespace nil.crypto3.zk.snark.knowledge_commitment

variable {S T1 T2 : Type}

/-! ### The collecting loops -/

theorem collect_g_eq_filter (G1 : group_ops S T1) (vec : List (knowledge_commitment T1 T2))
    (g_vec : List T1) :
    collect_g G1 vec g_vec
      = g_vec ++ (vec.map (fun kc => kc.g)).filter (fun x => !G1.is_zero x) := by
  induction vec generalizing g_vec with
  | nil => simp [collect_g]
  | cons kc rest ih =>
    cases hz : G1.is_zero kc.g <;> simp [collect_g, hz, ih]

theorem collect_h_eq_filter (G2 : group_ops S T2) (vec : List (knowledge_commitment T1 T2))
    (h_vec : List T2) :
    collect_h G2 vec h_vec
      = h_vec ++ (vec.map (fun kc => kc.h)).filter (fun x => !G2.is_zero x) := by
  induction vec generalizing h_vec with
  | nil => simp [collect_h]
  | cons kc rest ih =>
    cases hz : G2.is_zero kc.h <;> simp [collect_h, hz, ih]

theorem g_vec_passed_eq (G1 : group_ops S T1) (vec : List (knowledge_commitment T1 T2)) :
    g_vec_passed G1 vec = (vec.map (fun kc => kc.g)).filter (fun x => !G1.is_zero x) := by
  simp [g_vec_passed, collect_g_eq_filter]

theorem h_vec_passed_eq (G2 : group_ops S T2) (vec : List (knowledge_commitment T1 T2)) :
    h_vec_passed G2 vec = (vec.map (fun kc => kc.h)).filter (fun x => !G2.is_zero x) := by
  simp [h_vec_passed, collect_h_eq_filter]

theorem length_filter_g (G1 : group_ops S T1) (vec : List (knowledge_commitment T1 T2)) :
    ((vec.map (fun kc => kc.g)).filter (fun x => !G1.is_zero x)).length
      = vec.countP (fun kc => !G1.is_zero kc.g) := by
  induction vec with
  | nil => rfl
  | cons kc rest ih =>
    cases hz : G1.is_zero kc.g <;> simp [List.filter_cons, List.countP_cons, hz, ih]

theorem length_filter_h (G2 : group_ops S T2) (vec : List (knowledge_commitment T1 T2)) :
    ((vec.map (fun kc => kc.h)).filter (fun x => !G2.is_zero x)).length
      = vec.countP (fun kc => !G2.is_zero kc.h) := by
  induction vec with
  | nil => rfl
  | cons kc rest ih =>
    cases hz : G2.is_zero kc.h <;> simp [List.filter_cons, List.countP_cons, hz, ih]

/-! ### The writing loops, index by index -/

theorem write_g_index (G1 : group_ops S T1) (g_vec : List T1) (zs : T1)
    (vec : List (knowledge_commitment T1 T2)) (g_it : Nat)
    (hroom : g_it + vec.countP (fun kc => !G1.is_zero kc.g) ≤ g_vec.length) :
    ∃ out, write_g G1 g_vec zs vec g_it = some out ∧ out.length = vec.length
      ∧ out.map (fun kc => kc.h) = vec.map (fun kc => kc.h)
      ∧ ∀ (i : Nat) (hi : i < vec.length),
          (out[i]?).map (fun kc => kc.g)
            = if G1.is_zero vec[i].g then some zs
              else g_vec[g_it + (vec.take i).countP (fun kc => !G1.is_zero kc.g)]? := by
  induction vec generalizing g_it with
  | nil => exact ⟨[], by simp [write_g]⟩
  | cons kc rest ih =>
    cases hz : G1.is_zero kc.g
    · have hlt : g_it < g_vec.length := by
        simp [List.countP_cons, hz] at hroom; omega
      have hroom2 : g_it + 1 + rest.countP (fun kc => !G1.is_zero kc.g) ≤ g_vec.length := by
        simp [List.countP_cons, hz] at hroom; omega
      obtain ⟨out, hout, hlen, hh, hidx⟩ := ih (g_it + 1) hroom2
      refine ⟨{ kc with g := g_vec[g_it] } :: out, ?_, by simp [hlen], by simp [hh], ?_⟩
      · simp [write_g, hz, hout, List.getElem?_eq_getElem hlt]
      · intro i hi
        cases i with
        | zero => simp [hz, List.getElem?_eq_getElem hlt]
        | succ j =>
          have hj : j < rest.length := by simpa using hi
          have := hidx j hj
          simp only [List.getElem?_cons_succ, List.getElem_cons_succ, List.take_succ_cons,
            List.countP_cons, hz]
          rw [this]
          simp [Nat.add_assoc, Nat.add_comm]
    · have hroom2 : g_it + rest.countP (fun kc => !G1.is_zero kc.g) ≤ g_vec.length := by
        simp [List.countP_cons, hz] at hroom; omega
      obtain ⟨out, hout, hlen, hh, hidx⟩ := ih g_it hroom2
      refine ⟨{ kc with g := zs } :: out, ?_, by simp [hlen], by simp [hh], ?_⟩
      · simp [write_g, hz, hout]
      · intro i hi
        cases i with
        | zero => simp [hz]
        | succ j =>
          have hj : j < rest.length := by simpa using hi
          have := hidx j hj
          simp only [List.getElem?_cons_succ, List.getElem_cons_succ, List.take_succ_cons,
            List.countP_cons, hz]
          rw [this]
          simp

theorem write_h_index (G2 : group_ops S T2) (h_vec : List T2) (zs : T2)
    (vec : List (knowledge_commitment T1 T2)) (h_it : Nat)
    (hroom : h_it + vec.countP (fun kc => !G2.is_zero kc.h) ≤ h_vec.length) :
    ∃ out, write_h G2 h_vec zs vec h_it = some out ∧ out.length = vec.length
      ∧ out.map (fun kc => kc.g) = vec.map (fun kc => kc.g)
      ∧ ∀ (i : Nat) (hi : i < vec.length),
          (out[i]?).map (fun kc => kc.h)
            = if G2.is_zero vec[i].h then some zs
              else h_vec[h_it + (vec.take i).countP (fun kc => !G2.is_zero kc.h)]? := by
  induction vec generalizing h_it with
  | nil => exact ⟨[], by simp [write_h]⟩
  | cons kc rest ih =>
    cases hz : G2.is_zero kc.h
    · have hlt : h_it < h_vec.length := by
        simp [List.countP_cons, hz] at hroom; omega
      have hroom2 : h_it + 1 + rest.countP (fun kc => !G2.is_zero kc.h) ≤ h_vec.length := by
        simp [List.countP_cons, hz] at hroom; omega
      obtain ⟨out, hout, hlen, hg, hidx⟩ := ih (h_it + 1) hroom2
      refine ⟨{ kc with h := h_vec[h_it] } :: out, ?_, by simp [hlen], by simp [hg], ?_⟩
      · simp [write_h, hz, hout, List.getElem?_eq_getElem hlt]
      · intro i hi
        cases i with
        | zero => simp [hz, List.getElem?_eq_getElem hlt]
        | succ j =>
          have hj : j < rest.length := by simpa using hi
          have := hidx j hj
          simp only [List.getElem?_cons_succ, List.getElem_cons_succ, List.take_succ_cons,
            List.countP_cons, hz]
          rw [this]
          simp [Nat.add_assoc, Nat.add_comm]
    · have hroom2 : h_it + rest.countP (fun kc => !G2.is_zero kc.h) ≤ h_vec.length := by
        simp [List.countP_cons, hz] at hroom; omega
      obtain ⟨out, hout, hlen, hg, hidx⟩ := ih h_it hroom2
      refine ⟨{ kc with h := zs } :: out, ?_, by simp [hlen], by simp [hg], ?_⟩
      · simp [write_h, hz, hout]
      · intro i hi
        cases i with
        | zero => simp [hz]
        | succ j =>
          have hj : j < rest.length := by simpa using hi
          have := hidx j hj
          simp only [List.getElem?_cons_succ, List.getElem_cons_succ, List.take_succ_cons,
            List.countP_cons, hz]
          rw [this]
          simp

/-! ### The writing loops when the batch routine normalises element by element -/

theorem write_g_of_map (G1 : group_ops S T1) (zs : T1)
    (vec : List (knowledge_commitment T1 T2)) (done : List T1) :
    write_g G1
        (done ++ ((vec.map (fun kc => kc.g)).filter (fun x => !G1.is_zero x)).map G1.to_special)
        zs vec done.length
      = some (vec.map (fun kc =>
          { kc with g := if G1.is_zero kc.g then zs else G1.to_special kc.g })) := by
  induction vec generalizing done with
  | nil => simp [write_g]
  | cons kc rest ih =>
    cases hz : G1.is_zero kc.g
    · have h := ih (done ++ [G1.to_special kc.g])
      simp only [List.length_append, List.length_singleton, List.append_assoc,
        List.singleton_append] at h
      have hget : ∀ tl : List T1, (done ++ G1.to_special kc.g :: tl)[done.length]?
          = some (G1.to_special kc.g) := by
        intro tl
        rw [List.getElem?_append_right (Nat.le_refl _)]
        simp
      simp [write_g, hz, List.filter_cons, h, hget]
    · have h := ih done
      simp [write_g, hz, List.filter_cons, h]

theorem write_h_of_map (G2 : group_ops S T2) (zs : T2)
    (vec : List (knowledge_commitment T1 T2)) (done : List T2) :
    write_h G2
        (done ++ ((vec.map (fun kc => kc.h)).filter (fun x => !G2.is_zero x)).map G2.to_special)
        zs vec done.length
      = some (vec.map (fun kc =>
          { kc with h := if G2.is_zero kc.h then zs else G2.to_special kc.h })) := by
  induction vec generalizing done with
  | nil => simp [write_h]
  | cons kc rest ih =>
    cases hz : G2.is_zero kc.h
    · have h := ih (done ++ [G2.to_special kc.h])
      simp only [List.length_append, List.length_singleton, List.append_assoc,
        List.singleton_append] at h
      have hget : ∀ tl : List T2, (done ++ G2.to_special kc.h :: tl)[done.length]?
          = some (G2.to_special kc.h) := by
        intro tl
        rw [List.getElem?_append_right (Nat.le_refl _)]
        simp
      simp [write_h, hz, List.filter_cons, h, hget]
    · have h := ih done
      simp [write_h, hz, List.filter_cons, h]

theorem filter_all_non_zero {T : Type} (G : group_ops S T) (l : List T) :
    ∀ x ∈ l.filter (fun x => !G.is_zero x), G.is_zero x = false := by
  intro x hx
  simpa using (List.mem_filter.mp hx).2

/-! ### Bookkeeping between the two passes -/

theorem countP_take_of_map_eq {α β : Type} (f : α → β) (p : β → Bool) (out vec : List α)
    (hmap : out.map f = vec.map f) (i : Nat) :
    (out.take i).countP (fun a => p (f a)) = (vec.take i).countP (fun a => p (f a)) := by
  have h1 : ∀ l : List α, (l.take i).countP (fun a => p (f a)) = ((l.map f).take i).countP p := by
    intro l
    rw [← List.map_take, List.countP_map]
    rfl
  rw [h1 out, h1 vec, hmap]

theorem countP_of_map_eq {α β : Type} (f : α → β) (p : β → Bool) (out vec : List α)
    (hmap : out.map f = vec.map f) :
    out.countP (fun a => p (f a)) = vec.countP (fun a => p (f a)) := by
  have h1 : ∀ l : List α, l.countP (fun a => p (f a)) = (l.map f).countP p := by
    intro l
    rw [List.countP_map]
    rfl
  rw [h1 out, h1 vec, hmap]

theorem getElem?_map_of_map_eq {α β : Type} (f : α → β) (out vec : List α)
    (hmap : out.map f = vec.map f) (i : Nat) :
    (out[i]?).map f = (vec[i]?).map f := by
  rw [← List.getElem?_map, ← List.getElem?_map, hmap]

theorem countP_take_lt {α : Type} (p : α → Bool) (vec : List α) (i : Nat) (hi : i < vec.length)
    (hp : p vec[i] = true) : (vec.take i).countP p < vec.countP p := by
  have hsplit : vec = vec.take i ++ vec[i] :: vec.drop (i + 1) := by
    rw [← List.drop_eq_getElem_cons hi, List.take_append_drop]
  have hcount : vec.countP p
      = (vec.take i).countP p + (vec[i] :: vec.drop (i + 1)).countP p := by
    conv_lhs => rw [hsplit]
    rw [List.countP_append]
  rw [hcount, List.countP_cons_of_pos _ _ hp]
  omega

/-! ### Claims about `batch_to_special_all_non_zeros` -/

/-- When the component routines replace every element of an all-non-zero
vector by its `to_special()`, the call returns, at every index,
`to_special()` of the old component where that component is non-zero and
`zero().to_special()` where it is zero; this is the vector of individually
normalised commitments as soon as `to_special()` sends every zero element to
`zero().to_special()`. -/
theorem batch_to_special_all_non_zeros_eq_map (G1 : group_ops S T1) (G2 : group_ops S T2)
    (hb1 : ∀ l : List T1, (∀ x ∈ l, G1.is_zero x = false) →
      G1.batch_to_special_all_non_zeros l = l.map G1.to_special)
    (hb2 : ∀ l : List T2, (∀ x ∈ l, G2.is_zero x = false) →
      G2.batch_to_special_all_non_zeros l = l.map G2.to_special)
    (vec : List (knowledge_commitment T1 T2)) :
    batch_to_special_all_non_zeros G1 G2 vec
        = some (vec.map (fun kc =>
            { g := if G1.is_zero kc.g then G1.to_special G1.zero else G1.to_special kc.g,
              h := if G2.is_zero kc.h then G2.to_special G2.zero else G2.to_special kc.h }))
      ∧ ((∀ x, G1.is_zero x = true → G1.to_special x = G1.to_special G1.zero) →
          (∀ y, G2.is_zero y = true → G2.to_special y = G2.to_special G2.zero) →
          batch_to_special_all_non_zeros G1 G2 vec = some (vec.map (to_special G1 G2))) := by
  have hg : g_pass G1 vec = some (vec.map (fun kc =>
      { kc with g := if G1.is_zero kc.g then G1.to_special G1.zero else G1.to_special kc.g })) := by
    have h := write_g_of_map G1 (G1.to_special G1.zero) vec []
    simp only [List.nil_append, List.length_nil] at h
    simp only [g_pass, g_vec_passed_eq]
    rw [hb1 _ (filter_all_non_zero G1 _)]
    exact h
  have hh : ∀ v : List (knowledge_commitment T1 T2), h_pass G2 v = some (v.map (fun kc =>
      { kc with h := if G2.is_zero kc.h then G2.to_special G2.zero else G2.to_special kc.h })) := by
    intro v
    have h := write_h_of_map G2 (G2.to_special G2.zero) v []
    simp only [List.nil_append, List.length_nil] at h
    simp only [h_pass, h_vec_passed_eq]
    rw [hb2 _ (filter_all_non_zero G2 _)]
    exact h
  have hmain : batch_to_special_all_non_zeros G1 G2 vec
        = some (vec.map (fun kc =>
            { g := if G1.is_zero kc.g then G1.to_special G1.zero else G1.to_special kc.g,
              h := if G2.is_zero kc.h then G2.to_special G2.zero else G2.to_special kc.h })) := by
    simp only [batch_to_special_all_non_zeros, hg, hh, List.map_map]
    rfl
  refine ⟨hmain, ?_⟩
  intro hz1 hz2
  rw [hmain]
  congr 1
  apply List.map_congr_left
  intro kc _
  cases h1 : G1.is_zero kc.g <;> cases h2 : G2.is_zero kc.h <;>
    simp [to_special, hz1 _, hz2 _, h1, h2]

/-- C1: `T1` and `T2` being groups under their `operator==` (`==` is
reflexive, and `to_special()` of any representative of the identity is `==`
to `zero().to_special()`), and the component routines replacing every element
of an all-non-zero vector by its `to_special()`, the call returns a vector of
the same length in which, at every index `i`,
`vec[i].g == (old vec[i].g).to_special()` and
`vec[i].h == (old vec[i].h).to_special()`, that is
`vec[i] == (old vec[i]).to_special()`; this holds for every `vec`, in
particular when no `vec[i]` is zero. -/
theorem batch_to_special_all_non_zeros_eq_to_special (G1 : group_ops S T1)
    (G2 : group_ops S T2)
    (hb1 : ∀ l : List T1, (∀ x ∈ l, G1.is_zero x = false) →
      G1.batch_to_special_all_non_zeros l = l.map G1.to_special)
    (hb2 : ∀ l : List T2, (∀ x ∈ l, G2.is_zero x = false) →
      G2.batch_to_special_all_non_zeros l = l.map G2.to_special)
    (hrefl1 : ∀ x, G1.eq x x = true) (hrefl2 : ∀ y, G2.eq y y = true)
    (hz1 : ∀ x, G1.is_zero x = true →
      G1.eq (G1.to_special G1.zero) (G1.to_special x) = true)
    (hz2 : ∀ y, G2.is_zero y = true →
      G2.eq (G2.to_special G2.zero) (G2.to_special y) = true)
    (vec : List (knowledge_commitment T1 T2)) :
    ∃ out, batch_to_special_all_non_zeros G1 G2 vec = some out
      ∧ out.length = vec.length
      ∧ ∀ (i : Nat) (hi : i < vec.length) (ho : i < out.length),
          G1.eq out[i].g (G1.to_special vec[i].g) = true
            ∧ G2.eq out[i].h (G2.to_special vec[i].h) = true
            ∧ eq G1 G2 out[i] (to_special G1 G2 vec[i]) = true := by
  refine ⟨_, (batch_to_special_all_non_zeros_eq_map G1 G2 hb1 hb2 vec).1, by simp, ?_⟩
  intro i hi ho
  have hg : G1.eq (if G1.is_zero vec[i].g then G1.to_special G1.zero
      else G1.to_special vec[i].g) (G1.to_special vec[i].g) = true := by
    cases h : G1.is_zero vec[i].g
    · simpa using hrefl1 _
    · simpa using hz1 _ h
  have hh : G2.eq (if G2.is_zero vec[i].h then G2.to_special G2.zero
      else G2.to_special vec[i].h) (G2.to_special vec[i].h) = true := by
    cases h : G2.is_zero vec[i].h
    · simpa using hrefl2 _
    · simpa using hz2 _ h
  simp only [List.getElem_map, eq, to_special, Bool.and_eq_true]
  exact ⟨hg, hh, hg, hh⟩

/-- Witness for C1: `frac_ops` for both groups, at `sample_vec`, in which no
commitment is zero while one `h` and one `g` are. -/
theorem batch_to_special_all_non_zeros_eq_to_special_witness :
    (∀ x, frac_ops.eq x x = true)
      ∧ (∀ x, frac_ops.is_zero x = true →
          frac_ops.eq (frac_ops.to_special frac_ops.zero) (frac_ops.to_special x) = true)
      ∧ (∀ kc ∈ sample_vec, is_zero frac_ops frac_ops kc = false)
      ∧ batch_to_special_all_non_zeros frac_ops frac_ops sample_vec
          = some [⟨(2, 1), (0, 0)⟩, ⟨(0, 0), (3, 1)⟩]
      ∧ ∃ out, batch_to_special_all_non_zeros frac_ops frac_ops sample_vec = some out
          ∧ out.length = sample_vec.length
          ∧ ∀ (i : Nat) (hi : i < sample_vec.length) (ho : i < out.length),
              frac_ops.eq out[i].g (frac_ops.to_special sample_vec[i].g) = true
                ∧ frac_ops.eq out[i].h (frac_ops.to_special sample_vec[i].h) = true
                ∧ eq frac_ops frac_ops out[i] (to_special frac_ops frac_ops sample_vec[i])
                    = true := by
  have hrefl : ∀ x, frac_ops.eq x x = true := by
    intro x
    simp [frac_ops]
  have hz : ∀ x, frac_ops.is_zero x = true →
      frac_ops.eq (frac_ops.to_special frac_ops.zero) (frac_ops.to_special x) = true := by
    intro x hx
    simp only [frac_ops] at hx ⊢
    simp [hx]
  exact ⟨hrefl, hz, by decide, by decide,
    batch_to_special_all_non_zeros_eq_to_special frac_ops frac_ops (fun _ _ => rfl)
      (fun _ _ => rfl) hrefl hrefl hz hz sample_vec⟩

/-- C2: when the component batch routines preserve the length of their
vector, the call returns a vector of the length of `vec` in which, at every
index `i`, `g` is `T1::zero().to_special()` if the old `vec[i].g` is zero and
otherwise the element at position `k` of the batch-normalised vector of
non-zero `g`s, `k` being the number of `j < i` with old `vec[j].g` non-zero,
a position inside that vector; likewise for `h`. -/
theorem batch_to_special_all_non_zeros_index (G1 : group_ops S T1) (G2 : group_ops S T2)
    (hlen1 : ∀ l : List T1, (G1.batch_to_special_all_non_zeros l).length = l.length)
    (hlen2 : ∀ l : List T2, (G2.batch_to_special_all_non_zeros l).length = l.length)
    (vec : List (knowledge_commitment T1 T2)) :
    ∃ out, batch_to_special_all_non_zeros G1 G2 vec = some out ∧ out.length = vec.length
      ∧ ∀ (i : Nat) (hi : i < vec.length),
          ((out[i]?).map (fun kc => kc.g)
            = if G1.is_zero vec[i].g then some (G1.to_special G1.zero)
              else (G1.batch_to_special_all_non_zeros
                      ((vec.map (fun kc => kc.g)).filter (fun x => !G1.is_zero x)))[
                    (vec.take i).countP (fun kc => !G1.is_zero kc.g)]?)
          ∧ (G1.is_zero vec[i].g = false →
              (vec.take i).countP (fun kc => !G1.is_zero kc.g)
                < (G1.batch_to_special_all_non_zeros
                    ((vec.map (fun kc => kc.g)).filter (fun x => !G1.is_zero x))).length)
          ∧ ((out[i]?).map (fun kc => kc.h)
            = if G2.is_zero vec[i].h then some (G2.to_special G2.zero)
              else (G2.batch_to_special_all_non_zeros
                      ((vec.map (fun kc => kc.h)).filter (fun x => !G2.is_zero x)))[
                    (vec.take i).countP (fun kc => !G2.is_zero kc.h)]?)
          ∧ (G2.is_zero vec[i].h = false →
              (vec.take i).countP (fun kc => !G2.is_zero kc.h)
                < (G2.batch_to_special_all_non_zeros
                    ((vec.map (fun kc => kc.h)).filter (fun x => !G2.is_zero x))).length) := by
  -- the `g` pass
  have hroom1 : 0 + vec.countP (fun kc => !G1.is_zero kc.g)
      ≤ (G1.batch_to_special_all_non_zeros (g_vec_passed G1 vec)).length := by
    rw [hlen1, g_vec_passed_eq, length_filter_g]; omega
  obtain ⟨out1, hout1, hlenout1, hh1, hidx1⟩ :=
    write_g_index G1 (G1.batch_to_special_all_non_zeros (g_vec_passed G1 vec))
      (G1.to_special G1.zero) vec 0 hroom1
  -- the `h` pass runs on what the `g` pass left, whose `h`s are the old ones
  have hcnt : out1.countP (fun kc => !G2.is_zero kc.h) = vec.countP (fun kc => !G2.is_zero kc.h) :=
    countP_of_map_eq (fun kc : knowledge_commitment T1 T2 => kc.h) (fun x => !G2.is_zero x)
      out1 vec hh1
  have hpassed : h_vec_passed G2 out1 = h_vec_passed G2 vec := by
    rw [h_vec_passed_eq, h_vec_passed_eq, hh1]
  have hroom2 : 0 + out1.countP (fun kc => !G2.is_zero kc.h)
      ≤ (G2.batch_to_special_all_non_zeros (h_vec_passed G2 out1)).length := by
    rw [hlen2, hpassed, h_vec_passed_eq, length_filter_h, hcnt]; omega
  obtain ⟨out2, hout2, hlenout2, hg2, hidx2⟩ :=
    write_h_index G2 (G2.batch_to_special_all_non_zeros (h_vec_passed G2 out1))
      (G2.to_special G2.zero) out1 0 hroom2
  refine ⟨out2, ?_, by rw [hlenout2, hlenout1], ?_⟩
  · simp only [batch_to_special_all_non_zeros, g_pass, h_pass]
    rw [hout1]
    exact hout2
  · intro i hi
    have hi1 : i < out1.length := by rw [hlenout1]; exact hi
    have hsame : out1[i].h = vec[i].h := by
      have := getElem?_map_of_map_eq (fun kc : knowledge_commitment T1 T2 => kc.h) out1 vec hh1 i
      simpa [List.getElem?_eq_getElem hi1, List.getElem?_eq_getElem hi] using this
    refine ⟨?_, ?_, ?_, ?_⟩
    · rw [getElem?_map_of_map_eq (fun kc : knowledge_commitment T1 T2 => kc.g) out2 out1 hg2 i,
        hidx1 i hi, g_vec_passed_eq]
      simp
    · intro hnz
      rw [hlen1, length_filter_g]
      exact countP_take_lt _ vec i hi (by simp [hnz])
    · rw [hidx2 i hi1, hsame, hpassed, h_vec_passed_eq,
        countP_take_of_map_eq (fun kc : knowledge_commitment T1 T2 => kc.h)
          (fun x => !G2.is_zero x) out1 vec hh1 i]
      simp
    · intro hnz
      rw [hlen2, length_filter_h]
      exact countP_take_lt _ vec i hi (by simp [hnz])

/-- Witness for C2: `frac_ops` for both groups, at `sample_vec`. -/
theorem batch_to_special_all_non_zeros_index_witness :
    (∀ l : List frac_point, (frac_ops.batch_to_special_all_non_zeros l).length = l.length)
      ∧ ∃ out, batch_to_special_all_non_zeros frac_ops frac_ops sample_vec = some out
          ∧ out.length = 2
          ∧ (out[0]?).map (fun kc => kc.g) = some (2, 1)
          ∧ (out[1]?).map (fun kc => kc.g) = some (0, 0)
          ∧ (out[0]?).map (fun kc => kc.h) = some (0, 0)
          ∧ (out[1]?).map (fun kc => kc.h) = some (3, 1) := by
  have hlen : ∀ l : List frac_point,
      (frac_ops.batch_to_special_all_non_zeros l).length = l.length := by
    intro l
    simp [frac_ops]
  obtain ⟨out, hout, hl, hidx⟩ :=
    batch_to_special_all_non_zeros_index frac_ops frac_ops hlen hlen sample_vec
  exact ⟨hlen, out, hout, hl,
    (hidx 0 (by decide)).1, (hidx 1 (by decide)).1,
    (hidx 0 (by decide)).2.2.1, (hidx 1 (by decide)).2.2.1⟩

/-- C7: the vector handed to `T1::batch_to_special_all_non_zeros` is the list
of the non-zero `g`s of `vec`, the one handed to
`T2::batch_to_special_all_non_zeros` is the list of the non-zero `h`s of the
vector the `g` pass left, and so every element of either has `is_zero()`
false, whatever zeros `vec` holds. -/
theorem passed_vectors_all_non_zero (G1 : group_ops S T1) (G2 : group_ops S T2)
    (vec : List (knowledge_commitment T1 T2)) :
    (g_vec_passed G1 vec = (vec.map (fun kc => kc.g)).filter (fun x => !G1.is_zero x)
        ∧ (g_vec_passed G1 vec).all (fun x => !G1.is_zero x) = true)
      ∧ ∀ vec1 : List (knowledge_commitment T1 T2),
          h_vec_passed G2 vec1 = (vec1.map (fun kc => kc.h)).filter (fun y => !G2.is_zero y)
            ∧ (h_vec_passed G2 vec1).all (fun y => !G2.is_zero y) = true := by
  refine ⟨⟨g_vec_passed_eq G1 vec, ?_⟩, fun vec1 => ⟨h_vec_passed_eq G2 vec1, ?_⟩⟩
  · rw [g_vec_passed_eq, List.all_eq_true]
    intro x hx
    simpa using filter_all_non_zero G1 _ x hx
  · rw [h_vec_passed_eq, List.all_eq_true]
    intro y hy
    simpa using filter_all_non_zero G2 _ y hy

/-! ### Claims about the group operations of a knowledge commitment -/

/-- C8: if in `T1` and `T2` `is_zero()` holds exactly for the points equal
(`operator==`) to `zero()`, then `kc.is_zero()` holds exactly when
`kc == knowledge_commitment::zero()`, that is exactly when both `g` and `h`
are the identity of their group. -/
theorem is_zero_iff_eq_zero (G1 : group_ops S T1) (G2 : group_ops S T2)
    (h1 : ∀ x, G1.is_zero x = true ↔ G1.eq x G1.zero = true)
    (h2 : ∀ y, G2.is_zero y = true ↔ G2.eq y G2.zero = true)
    (kc : knowledge_commitment T1 T2) :
    (is_zero G1 G2 kc = true ↔ eq G1 G2 kc (zero G1 G2) = true)
      ∧ (is_zero G1 G2 kc = true ↔ (G1.eq kc.g G1.zero = true ∧ G2.eq kc.h G2.zero = true))
      ∧ (is_zero G1 G2 kc = true ↔ (G1.is_zero kc.g = true ∧ G2.is_zero kc.h = true)) := by
  refine ⟨?_, ?_, ?_⟩
  · simp only [is_zero, eq, zero, Bool.and_eq_true, h1, h2]
  · simp only [is_zero, Bool.and_eq_true, h1, h2]
  · simp only [is_zero, Bool.and_eq_true]

/-- Witness for C8: `frac_ops` for both groups, at the commitment
`((5, 0), (0, 0))`, which is zero. -/
theorem is_zero_iff_eq_zero_witness :
    (∀ x, frac_ops.is_zero x = true ↔ frac_ops.eq x frac_ops.zero = true)
      ∧ is_zero frac_ops frac_ops ⟨(5, 0), (0, 0)⟩ = true
      ∧ eq frac_ops frac_ops ⟨(5, 0), (0, 0)⟩ (zero frac_ops frac_ops) = true := by
  have hz : ∀ x, frac_ops.is_zero x = true ↔ frac_ops.eq x frac_ops.zero = true := by
    intro x
    simp [frac_ops]
  exact ⟨hz, by decide,
    (is_zero_iff_eq_zero frac_ops frac_ops hz hz ⟨(5, 0), (0, 0)⟩).1.mp (by decide)⟩

/-- C9: if `P + O == P` and `O + P == P` hold in `T1` and `T2`, then
`kc + zero() == kc` and `zero() + kc == kc` for every knowledge commitment. -/
theorem add_zero_eq_self (G1 : group_ops S T1) (G2 : group_ops S T2)
    (h1r : ∀ P, G1.eq (G1.add P G1.zero) P = true)
    (h1l : ∀ P, G1.eq (G1.add G1.zero P) P = true)
    (h2r : ∀ P, G2.eq (G2.add P G2.zero) P = true)
    (h2l : ∀ P, G2.eq (G2.add G2.zero P) P = true)
    (kc : knowledge_commitment T1 T2) :
    eq G1 G2 (add G1 G2 kc (zero G1 G2)) kc = true
      ∧ eq G1 G2 (add G1 G2 (zero G1 G2) kc) kc = true := by
  simp [eq, add, zero, h1r, h1l, h2r, h2l]

/-- Witness for C9: `frac_ops` for both groups, at the commitment
`((4, 2), (7, 0))`. -/
theorem add_zero_eq_self_witness :
    (∀ P, frac_ops.eq (frac_ops.add P frac_ops.zero) P = true)
      ∧ (∀ P, frac_ops.eq (frac_ops.add frac_ops.zero P) P = true)
      ∧ eq frac_ops frac_ops (add frac_ops frac_ops ⟨(4, 2), (7, 0)⟩ (zero frac_ops frac_ops))
          ⟨(4, 2), (7, 0)⟩ = true
      ∧ eq frac_ops frac_ops (add frac_ops frac_ops (zero frac_ops frac_ops) ⟨(4, 2), (7, 0)⟩)
          ⟨(4, 2), (7, 0)⟩ = true := by
  have hr : ∀ P, frac_ops.eq (frac_ops.add P frac_ops.zero) P = true := by
    intro P
    by_cases hP : P.2 = 0 <;> simp [frac_ops, hP]
  have hl : ∀ P, frac_ops.eq (frac_ops.add frac_ops.zero P) P = true := by
    intro P
    simp [frac_ops]
  exact ⟨hr, hl, add_zero_eq_self frac_ops frac_ops hr hl hr hl ⟨(4, 2), (7, 0)⟩⟩

/-- C10: for all scalars `a`, `b` and all commitments `(g, h)`, `(g', h')`,
`a * (g, h) + b * (g', h')`, built from the number overload of `operator*`
and from `operator+`, is the commitment `(a*g + b*g', a*h + b*h')`. -/
theorem scalar_mul_add_scalar_mul (G1 : group_ops S T1) (G2 : group_ops S T2) (a b : S)
    (g g' : T1) (h h' : T2) :
    add G1 G2 (scalar_mul G1 G2 a ⟨g, h⟩) (scalar_mul G1 G2 b ⟨g', h'⟩)
      = ⟨G1.add (G1.scalar_mul a g) (G1.scalar_mul b g'),
         G2.add (G2.scalar_mul a h) (G2.scalar_mul b h')⟩ := by
  simp [add, scalar_mul]

end nil.crypto3.zk.snark.knowledge_commitment

namespace nil.crypto3.zk.snark.knowledge_commitment

end nil.crypto3.zk.snark.knowledge_commitment

namespace nil.crypto3.algebra.curves.detail

open fields

/-- C12: the G2 coefficient `b` is `g1_b * twist` with `g1_b = 4` and
`twist = 1 + u`, that is `4 + 4u`. -/
theorem g2_b_eq_four_plus_four_u :
    bls12_short_weierstrass_g2_params_381.b
        = fp2_scale bls12_base_field_381_modulus bls12_short_weierstrass_g2_params_381.g1_b
            bls12_short_weierstrass_g2_params_381.twist
      ∧ bls12_short_weierstrass_g2_params_381.g1_b = 4
      ∧ bls12_short_weierstrass_params_381.b = 4
      ∧ bls12_short_weierstrass_g2_params_381.twist = ⟨1, 1⟩
      ∧ bls12_short_weierstrass_g2_params_381.b = ⟨4, 4⟩ := by
  decide

/-- C13: in G1 and in G2, `zero_fill[2]` is the field zero and `one_fill[2]`
is the field one, which is not the field zero. -/
theorem zero_fill_one_fill_z_coordinate :
    bls12_short_weierstrass_g1_params_381.zero_fill 2 = fp_value bls12_base_field_381_modulus 0
      ∧ bls12_short_weierstrass_g1_params_381.zero_fill 2 = 0
      ∧ bls12_short_weierstrass_g1_params_381.one_fill 2 = fp_value bls12_base_field_381_modulus 1
      ∧ bls12_short_weierstrass_g1_params_381.one_fill 2 = 1
      ∧ bls12_short_weierstrass_g2_params_381.zero_fill 2 = ⟨0, 0⟩
      ∧ bls12_short_weierstrass_g2_params_381.one_fill 2 = ⟨1, 0⟩
      ∧ bls12_short_weierstrass_g1_params_381.one_fill 2
          ≠ bls12_short_weierstrass_g1_params_381.zero_fill 2
      ∧ bls12_short_weierstrass_g2_params_381.one_fill 2
          ≠ bls12_short_weierstrass_g2_params_381.zero_fill 2 := by
  decide

/-- C14: each of the six generator-coordinate literals is below `2^w` for the
width `w` of its suffix (381, 380, 378, 381, 380, 379) and below the
base-field prime, so the field element built from it is the literal itself;
these literals are the coordinates of `one_fill`. -/
theorem one_fill_literals_in_range :
    (∀ lw ∈ bls12_short_weierstrass_g1_params_381.one_fill_literals
          ++ bls12_short_weierstrass_g2_params_381.one_fill_literals,
        lw.1 < 2 ^ lw.2 ∧ lw.1 < bls12_base_field_381_modulus
          ∧ fp_value bls12_base_field_381_modulus lw.1 = lw.1)
      ∧ (bls12_short_weierstrass_g1_params_381.one_fill_literals
          ++ bls12_short_weierstrass_g2_params_381.one_fill_literals).map (fun lw => lw.2)
          = [381, 380, 378, 381, 380, 379]
      ∧ bls12_short_weierstrass_g1_params_381.one_fill_literals.map (fun lw => lw.1)
          = [bls12_short_weierstrass_g1_params_381.one_fill 0,
             bls12_short_weierstrass_g1_params_381.one_fill 1]
      ∧ bls12_short_weierstrass_g2_params_381.one_fill_literals.map (fun lw => lw.1)
          = [(bls12_short_weierstrass_g2_params_381.one_fill 0).c0,
             (bls12_short_weierstrass_g2_params_381.one_fill 0).c1,
             (bls12_short_weierstrass_g2_params_381.one_fill 1).c0,
             (bls12_short_weierstrass_g2_params_381.one_fill 1).c1] := by
  decide

/-- C15: the parameter structs bound to `jacobian_with_a4_0` have the
inherited linear coefficient `a = 0` (G1 and G2) and G1 has the inherited
`b = 4`, so the right-hand side of the G1 curve equation is `x^3 + 4` for
every `x`. -/
theorem jacobian_with_a4_0_params_a_eq_zero :
    bls12_short_weierstrass_g1_params_381.a = 0
      ∧ bls12_short_weierstrass_g2_params_381.a = 0
      ∧ bls12_short_weierstrass_g1_params_381.b = 4
      ∧ ∀ x : Nat,
          (x * x * x + bls12_short_weierstrass_g1_params_381.a * x
              + bls12_short_weierstrass_g1_params_381.b) % bls12_base_field_381_modulus
            = (x * x * x + 4) % bls12_base_field_381_modulus := by
  refine ⟨by decide, by decide, by decide, ?_⟩
  intro x
  simp [bls12_short_weierstrass_g1_params_381.a, bls12_short_weierstrass_g1_params_381.b,
    bls12_short_weierstrass_params_381.a, bls12_short_weierstrass_params_381.b]

end nil.crypto3.algebra.curves.detail

namespace nil.crypto3.kdf.kdf2

theorem kdf2_stream_succ (Hash : List Nat → List Nat) (secret label salt : List Nat) (n : Nat) :
    kdf2_stream Hash secret label salt (n + 1)
      = kdf2_stream Hash secret label salt n
          ++ Hash (secret ++ store_be32 (n + 1) ++ label ++ salt) := by
  simp [kdf2_stream, List.range_succ]

theorem kdf2_stream_length (Hash : List Nat → List Nat) (hlen : Nat)
    (hHash : ∀ x, (Hash x).length = hlen) (secret label salt : List Nat) (n : Nat) :
    (kdf2_stream Hash secret label salt n).length = n * hlen := by
  induction n with
  | zero => simp [kdf2_stream]
  | succ n ih => rw [kdf2_stream_succ, List.length_append, ih, hHash, Nat.succ_mul]

theorem kdf2_stream_take_le (Hash : List Nat → List Nat) (hlen : Nat)
    (hHash : ∀ x, (Hash x).length = hlen) (secret label salt : List Nat) (k n m : Nat)
    (hk : k ≤ n * hlen) (hnm : n ≤ m) :
    (kdf2_stream Hash secret label salt m).take k
      = (kdf2_stream Hash secret label salt n).take k := by
  induction m, hnm using Nat.le_induction with
  | base => rfl
  | succ m _ ih =>
    rw [kdf2_stream_succ, List.take_append_eq_append_take, ih]
    have hlen_n : (kdf2_stream Hash secret label salt n).length = n * hlen :=
      kdf2_stream_length Hash hlen hHash secret label salt n
    have hlen_m : (kdf2_stream Hash secret label salt m).length = m * hlen :=
      kdf2_stream_length Hash hlen hHash secret label salt m
    have hmn : n * hlen ≤ m * hlen := Nat.mul_le_mul_right _ (by assumption)
    have : k - (kdf2_stream Hash secret label salt m).length = 0 := by omega
    rw [this]
    simp

theorem kdf2_stream_take_eq (Hash : List Nat → List Nat) (hlen : Nat)
    (hHash : ∀ x, (Hash x).length = hlen) (secret label salt : List Nat) (k n m : Nat)
    (hn : k ≤ n * hlen) (hm : k ≤ m * hlen) :
    (kdf2_stream Hash secret label salt m).take k
      = (kdf2_stream Hash secret label salt n).take k := by
  rcases Nat.le_total n m with h | h
  · exact kdf2_stream_take_le Hash hlen hHash secret label salt k n m hn h
  · exact (kdf2_stream_take_le Hash hlen hHash secret label salt k m n hm h).symm

theorem copy_mem_length (key : List Nat) (offset : Nat) (h : List Nat) (added : Nat)
    (hadd : added ≤ h.length) (hfit : offset + added ≤ key.length) :
    (copy_mem key offset h added).length = key.length := by
  simp only [copy_mem, List.length_append, List.length_take, List.length_drop]
  omega

theorem copy_mem_take (key : List Nat) (offset : Nat) (h : List Nat) (added : Nat)
    (hadd : added ≤ h.length) (hfit : offset + added ≤ key.length) :
    (copy_mem key offset h added).take (offset + added) = key.take offset ++ h.take added := by
  have h1 : (key.take offset ++ h.take added).length = offset + added := by
    simp only [List.length_append, List.length_take]
    omega
  simp only [copy_mem]
  exact List.take_left' h1

/-- The loop of `process`, started after `i` iterations with enough fuel for
the remaining ones, ends with the whole key written. -/
theorem process_loop_spec (Hash : List Nat → List Nat) (hlen : Nat)
    (hHash : ∀ x, (Hash x).length = hlen) (secret label salt : List Nat) (key_len len : Nat)
    (hbound : key_len ≤ (2 ^ 32 - 1) * hlen) (hlenkey : key_len ≤ len)
    (fuel : Nat) :
    ∀ (i : Nat) (st : process_state), i ≤ 2 ^ 32 - 1 → 2 ^ 32 - 1 ≤ fuel + i →
      st.counter = (i + 1) % 2 ^ 32 → st.offset = min (i * hlen) key_len →
      st.key.length = len →
      st.key.take st.offset = (kdf2_stream Hash secret label salt i).take st.offset →
      ∃ st' m, process_loop Hash secret label salt key_len fuel st = some st'
        ∧ st'.offset = key_len ∧ st'.key.length = len ∧ key_len ≤ m * hlen
        ∧ st'.key.take key_len = (kdf2_stream Hash secret label salt m).take key_len := by
  induction fuel with
  | zero =>
    intro i st hi hfuel hc ho hk hpre
    have hi' : i = 2 ^ 32 - 1 := by omega
    have hge : key_len ≤ i * hlen := by rw [hi']; exact hbound
    have hoff : st.offset = key_len := by rw [ho]; omega
    refine ⟨st, i, ?_, hoff, hk, hge, ?_⟩
    · simp [process_loop, hoff]
    · rw [← hoff]; exact hpre
  | succ fuel ih =>
    intro i st hi hfuel hc ho hk hpre
    by_cases hoff : st.offset = key_len
    · have hge : key_len ≤ i * hlen := by rw [ho] at hoff; omega
      refine ⟨st, i, ?_, hoff, hk, hge, ?_⟩
      · simp [process_loop, hoff]
      · rw [← hoff]; exact hpre
    · have hlt : i * hlen < key_len := by rw [ho] at hoff; omega
      have hi2 : i < 2 ^ 32 - 1 := by
        by_contra hcon
        have h1 : 2 ^ 32 - 1 ≤ i := by omega
        have h2 : (2 ^ 32 - 1) * hlen ≤ i * hlen := Nat.mul_le_mul_right _ h1
        omega
      have hcnt : st.counter = i + 1 := by
        rw [hc]; exact Nat.mod_eq_of_lt (by omega)
      have hoffi : st.offset = i * hlen := by rw [ho]; omega
      have hsucc : (i + 1) * hlen = i * hlen + hlen := Nat.succ_mul i hlen
      have hadd : min hlen (key_len - st.offset) ≤ (Hash (secret ++ store_be32 (i + 1) ++ label
          ++ salt)).length := by
        rw [hHash]; exact Nat.min_le_left _ _
      have hfit : st.offset + min hlen (key_len - st.offset) ≤ st.key.length := by
        rw [hk]; omega
      have hstream_i : (kdf2_stream Hash secret label salt i).length = i * hlen :=
        kdf2_stream_length Hash hlen hHash secret label salt i
      have hkeypre : st.key.take st.offset = kdf2_stream Hash secret label salt i := by
        rw [hpre, hoffi]
        exact List.take_of_length_le (by rw [hstream_i])
      obtain ⟨st', m, hrun, h1, h2, h3, h4⟩ := ih (i + 1)
        { counter := (st.counter + 1) % 2 ^ 32,
          offset := st.offset + min hlen (key_len - st.offset),
          key := copy_mem st.key st.offset
            (Hash (secret ++ store_be32 (i + 1) ++ label ++ salt))
            (min hlen (key_len - st.offset)) }
        (by omega) (by omega) (by simp only [hcnt])
        (by simp only [hsucc]; omega)
        (by simp only []; rw [copy_mem_length _ _ _ _ hadd hfit]; exact hk)
        (by
          simp only []
          rw [copy_mem_take _ _ _ _ hadd hfit, hkeypre, kdf2_stream_succ]
          conv_rhs => rw [hoffi, ← hstream_i]
          rw [List.take_append]
          simp only [hstream_i, hoffi])
      refine ⟨st', m, ?_, h1, h2, h3, h4⟩
      have hcond : (st.offset != key_len && st.counter != 0) = true := by
        simp [hoff, hcnt]
      rw [process_loop, if_pos hcond]
      simp only [hHash, hcnt] at hrun ⊢
      exact hrun

/-- C16: with a hash whose digests have `hlen` bytes, a buffer `key` of at
least `key_len` bytes and `key_len <= (2^32 - 1) * hlen`, `process` returns
with final offset `key_len`, and `key[0 .. key_len)` holds the first
`key_len` bytes of `T(1) || T(2) || ...`, where
`T(i) = Hash(secret || big-endian-32(i) || label || salt)` and the counter
starts at 1 (for `hlen = 0` the bound forces `key_len = 0`). -/
theorem process_writes_kdf2_stream (Hash : List Nat → List Nat) (hlen : Nat)
    (hHash : ∀ x, (Hash x).length = hlen) (secret label salt key : List Nat) (key_len : Nat)
    (hbound : key_len ≤ (2 ^ 32 - 1) * hlen) (hkey : key_len ≤ key.length) :
    ∃ st, process Hash secret label salt key key_len = some st
      ∧ st.offset = key_len ∧ st.key.length = key.length
      ∧ ∀ n, key_len ≤ n * hlen →
          st.key.take key_len = (kdf2_stream Hash secret label salt n).take key_len := by
  obtain ⟨st, m, hrun, hoff, hlenkey, hm, htake⟩ :=
    process_loop_spec Hash hlen hHash secret label salt key_len key.length hbound hkey
      (2 ^ 32) 0 { counter := 1, offset := 0, key := key }
      (by omega) (by omega) (by simp) (by simp) rfl (by simp)
  refine ⟨st, hrun, hoff, hlenkey, ?_⟩
  intro n hn
  rw [htake]
  exact kdf2_stream_take_eq Hash hlen hHash secret label salt key_len n m hn hm

/-- Witness for C16: the four-byte `sample_hash`, six bytes of key asked for
in a buffer of seven. -/
theorem process_writes_kdf2_stream_witness :
    (∀ x, (sample_hash x).length = 4)
      ∧ kdf2_stream sample_hash [1, 2] [3] [] 2 = [7, 3, 1, 0, 7, 3, 2, 0]
      ∧ process sample_hash [1, 2] [3] [] [9, 9, 9, 9, 9, 9, 9] 6
          = some ⟨3, 6, [7, 3, 1, 0, 7, 3, 9]⟩
      ∧ ∃ st, process sample_hash [1, 2] [3] [] [9, 9, 9, 9, 9, 9, 9] 6 = some st
          ∧ st.offset = 6 ∧ st.key.length = 7
          ∧ st.key.take 6 = (kdf2_stream sample_hash [1, 2] [3] [] 2).take 6 := by
  obtain ⟨st, hrun, hoff, hlen, hstream⟩ :=
    process_writes_kdf2_stream sample_hash 4 (fun _ => rfl) [1, 2] [3] []
      [9, 9, 9, 9, 9, 9, 9] 6 (by decide) (by decide)
  exact ⟨fun _ => rfl, by decide, by decide, st, hrun, hoff, hlen, hstream 2 (by decide)⟩

end nil.crypto3.kdf.kdf2

namespace nil.crypto3.zk.snark

open nil.crypto3.algebra.fields

/-! ### `pb_packing_sum` -/

theorem pb_packing_sum_fold_zero (p : Nat) (v : List blueprint_linear_combination)
    (acc : List linear_term) (hacc : acc.all (fun t => t.coeff == 0) = true) :
    ((v.foldl
      (fun (st : Nat × List linear_term) lc =>
        (fp_add p st.1 st.1,
         lc.terms.foldl (fun all_terms term => all_terms ++ [linear_term.scale p st.1 term])
           st.2))
      (0, acc)).2).all (fun t => t.coeff == 0) = true := by
  induction v generalizing acc with
  | nil => simpa using hacc
  | cons lc rest ih =>
    have hinner : ∀ (ts : List linear_term) (a : List linear_term),
        a.all (fun t => t.coeff == 0) = true →
        (ts.foldl (fun all_terms term => all_terms ++ [linear_term.scale p 0 term]) a).all
          (fun t => t.coeff == 0) = true := by
      intro ts
      induction ts with
      | nil => intro a ha; simpa using ha
      | cons t ts iht =>
        intro a ha
        apply iht
        simp only [List.all_append, ha, Bool.true_and]
        simp [linear_term.scale, fp_mul]
    have h0 : fp_add p 0 0 = 0 := by simp [fp_add]
    simp only [List.foldl_cons, h0]
    exact ih _ (hinner lc.terms acc hacc)

/-- C17: `twoi` starts as zero and stays zero, so every term `pb_packing_sum`
collects has coefficient zero; on the two variables with indices 1 and 2
(modulus 7) it collects `0 * x1` and `0 * x2`, where the sum of `2^i * v[i]`
has `1 * x1` and `2 * x2`. -/
theorem pb_packing_sum_all_coeff_zero :
    (∀ (p : Nat) (v : List blueprint_linear_combination),
        (pb_packing_sum p v).all (fun t => t.coeff == 0) = true)
      ∧ pb_packing_sum 7 [blueprint_linear_combination.of_variable 7 ⟨1⟩,
            blueprint_linear_combination.of_variable 7 ⟨2⟩] = [⟨1, 0⟩, ⟨2, 0⟩]
      ∧ packing_sum_terms 7 [blueprint_linear_combination.of_variable 7 ⟨1⟩,
            blueprint_linear_combination.of_variable 7 ⟨2⟩] = [⟨1, 1⟩, ⟨2, 2⟩] := by
  refine ⟨?_, by decide, by decide⟩
  intro p v
  have h := pb_packing_sum_fold_zero p v [] (by simp)
  simpa [pb_packing_sum, fp_value] using h

/-! ### `get_bits` after `fill_with_bits` -/

/-- C18: for the one linear combination with lc index 0 and the bit vector
`[true]` (modulus 7): `fill_with_bits` stores one, and `get_bits` then fails
its assertion `v == zero() || v == zero()`, or, with assertions compiled out,
returns `[false]`; `get_bits` of `blueprint_variable_vector` returns `[true]`
on the corresponding input. -/
theorem lc_get_bits_after_fill_with_bits :
    (blueprint_linear_combination_vector.fill_with_bits 7 true [⟨[], false, 0⟩]
        ⟨fun _ => 0, fun _ => 0⟩ [true]).map
        (fun pb => blueprint_linear_combination_vector.get_bits 7 true [⟨[], false, 0⟩] pb)
      = some none
    ∧ (blueprint_linear_combination_vector.fill_with_bits 7 false [⟨[], false, 0⟩]
        ⟨fun _ => 0, fun _ => 0⟩ [true]).map
        (fun pb => blueprint_linear_combination_vector.get_bits 7 false [⟨[], false, 0⟩] pb)
      = some (some [false])
    ∧ (blueprint_variable_vector.fill_with_bits 7 true [⟨1⟩]
        ⟨fun _ => 0, fun _ => 0⟩ [true]).map
        (fun pb => blueprint_variable_vector.get_bits 7 true [⟨1⟩] pb)
      = some (some [true]) := by
  decide

/-! ### The padding constructor of `digest_variable` -/

theorem pad_loop_eq (digest_size : Nat) (padding : blueprint_variable) (fuel : Nat) :
    ∀ bits : List blueprint_variable, bits.length ≤ digest_size →
      digest_size - bits.length ≤ fuel →
      digest_variable.pad_loop digest_size padding fuel bits
        = some (bits ++ List.replicate (digest_size - bits.length) padding) := by
  induction fuel with
  | zero =>
    intro bits hle hfuel
    have : bits.length = digest_size := by omega
    simp [digest_variable.pad_loop, this]
  | succ fuel ih =>
    intro bits hle hfuel
    by_cases heq : bits.length = digest_size
    · simp [digest_variable.pad_loop, heq]
    · have hlt : bits.length < digest_size := by omega
      have hstep := ih (bits ++ [padding]) (by simp; omega) (by simp; omega)
      have hrep : digest_size - bits.length = (digest_size - (bits.length + 1)) + 1 := by omega
      simp only [digest_variable.pad_loop, bne_iff_ne, ne_eq, heq, not_false_eq_true, if_true]
      rw [hstep, hrep, List.replicate_succ]
      simp

/-- C20: for `partial_bits.size() <= digest_size` and any padding variable,
the padding constructor returns once it is given the
`digest_size - partial_bits.size()` loop iterations it needs, with
`bits.size() == digest_size`, `bits[i] == partial_bits[i]` for
`i < partial_bits.size()` and `bits[i] == padding` for
`partial_bits.size() <= i < digest_size`. -/
theorem padded_returns (assertions : Bool) (fuel digest_size : Nat)
    (partial_bits : List blueprint_variable) (padding : blueprint_variable)
    (hsize : partial_bits.length ≤ digest_size)
    (hfuel : digest_size - partial_bits.length ≤ fuel) :
    ∃ dv, digest_variable.padded assertions fuel digest_size partial_bits padding
        = outcome.returned dv
      ∧ dv.digest_size = digest_size
      ∧ dv.bits.length = digest_size
      ∧ (∀ (i : Nat) (hi : i < partial_bits.length), dv.bits[i]? = some partial_bits[i])
      ∧ (∀ i : Nat, partial_bits.length ≤ i → i < digest_size → dv.bits[i]? = some padding) := by
  refine ⟨⟨digest_size, partial_bits ++ List.replicate (digest_size - partial_bits.length)
    padding⟩, ?_, rfl, ?_, ?_, ?_⟩
  · simp [digest_variable.padded, pad_loop_eq digest_size padding fuel partial_bits hsize hfuel]
  · simp only [List.length_append, List.length_replicate]
    omega
  · intro i hi
    simp only
    rw [List.getElem?_append_left hi, List.getElem?_eq_getElem hi]
  · intro i hle hlt
    simp only
    rw [List.getElem?_append_right hle]
    have : i - partial_bits.length < digest_size - partial_bits.length := by omega
    simp [List.getElem?_replicate, this]

/-- Witness for C20: two partial bits padded to a digest of five. -/
theorem padded_returns_witness :
    digest_variable.padded true 3 5 [⟨4⟩, ⟨8⟩] ⟨2⟩
        = outcome.returned ⟨5, [⟨4⟩, ⟨8⟩, ⟨2⟩, ⟨2⟩, ⟨2⟩]⟩
      ∧ ∃ dv, digest_variable.padded true 3 5 [⟨4⟩, ⟨8⟩] ⟨2⟩ = outcome.returned dv
          ∧ dv.digest_size = 5
          ∧ dv.bits.length = 5
          ∧ (∀ (i : Nat) (hi : i < [(⟨4⟩ : blueprint_variable), ⟨8⟩].length),
              dv.bits[i]? = some ([(⟨4⟩ : blueprint_variable), ⟨8⟩][i]))
          ∧ (∀ i : Nat, [(⟨4⟩ : blueprint_variable), ⟨8⟩].length ≤ i → i < 5 →
              dv.bits[i]? = some ⟨2⟩) :=
  ⟨by decide, padded_returns true 3 5 [⟨4⟩, ⟨8⟩] ⟨2⟩ (by decide) (by decide)⟩

/-! ### Bits of a field element: `fill_with_bits_of_field_element` and
`get_field_element_from_bits` -/

theorem sum_bits_eq_mod (r n : Nat) :
    (∑ i in Finset.range n, (if Nat.testBit r i then 1 else 0) * 2 ^ i) = r % 2 ^ n := by
  induction n with
  | zero => simp [Nat.mod_one]
  | succ n ih =>
    rw [Finset.sum_range_succ, ih, Nat.mod_pow_succ, Nat.testBit_to_div_mod]
    have h2 : r / 2 ^ n % 2 = 0 ∨ r / 2 ^ n % 2 = 1 := by omega
    rcases h2 with h | h
    · simp [h]
    · simp [h, Nat.mul_comm]

theorem get_field_element_from_bits_loop (p : Nat) (hp : 1 < p) (assertions : Bool)
    (self : List blueprint_variable) (pb : blueprint)
    (hbits : ∀ i, i < self.length → pb.val self[i]! = 0 ∨ pb.val self[i]! = 1) (k : Nat)
    (hk : k ≤ self.length) :
    for_loop_checked
        (fun i result =>
          let v := pb.val self[self.length - 1 - i]!
          if assertions && !(v == fp_value p 0 || v == fp_value p 1) then none
          else some (fp_add p result (fp_add p result v)))
        k (fp_value p 0)
      = some ((∑ t in Finset.range k, pb.val self[self.length - k + t]! * 2 ^ t) % p) := by
  have h0 : fp_value p 0 = 0 := by simp [fp_value]
  have h1 : fp_value p 1 = 1 := by simp [fp_value, Nat.mod_eq_of_lt hp]
  induction k with
  | zero => simp [for_loop_checked, h0]
  | succ k ih =>
    have hidx : self.length - 1 - k = self.length - (k + 1) := by omega
    have hsum : (∑ t in Finset.range (k + 1), pb.val self[self.length - (k + 1) + t]! * 2 ^ t)
        = 2 * (∑ t in Finset.range k, pb.val self[self.length - k + t]! * 2 ^ t)
          + pb.val self[self.length - (k + 1)]! := by
      rw [Finset.sum_range_succ', Finset.mul_sum]
      simp only [Nat.add_zero, pow_zero, Nat.mul_one]
      congr 1
      apply Finset.sum_congr rfl
      intro t _
      have : self.length - (k + 1) + (t + 1) = self.length - k + t := by omega
      rw [this, pow_succ]
      ring
    have hv := hbits (self.length - (k + 1)) (by omega)
    have hcheck : (assertions && !(pb.val self[self.length - (k + 1)]! == 0
        || pb.val self[self.length - (k + 1)]! == 1)) = false := by
      rcases hv with h | h <;> simp [h]
    rw [for_loop_checked, ih (by omega)]
    simp only [hidx, h0, h1, hcheck]
    simp only [Bool.false_eq_true, if_false, hsum, fp_add, Nat.add_mod_mod, Nat.mod_add_mod]
    congr 2
    omega

theorem fill_with_bits_of_field_element_loop (p : Nat) (self : List blueprint_variable)
    (hnd : self.Nodup) (pb : blueprint) (r : Nat) (k : Nat) (hk : k ≤ self.length) :
    ∀ j, j < k →
      (for_loop
        (fun i pb => pb.set_val self[i]! (if bit_test r i then fp_value p 1 else fp_value p 0))
        k pb).val self[j]!
        = if bit_test r j then fp_value p 1 else fp_value p 0 := by
  induction k with
  | zero => intro j hj; omega
  | succ k ih =>
    intro j hj
    simp only [for_loop, blueprint.set_val, blueprint.val]
    by_cases hjk : j = k
    · subst hjk
      simp
    · have hjlt : j < k := by omega
      have hjl : j < self.length := by omega
      have hkl : k < self.length := by omega
      have hne : self[j]!.index ≠ self[k]!.index := by
        rw [getElem!_pos self j hjl, getElem!_pos self k hkl]
        intro hidx
        have heq : self[j] = self[k] := by
          cases hj' : self[j]
          cases hk' : self[k]
          simp_all
        exact hjk ((List.Nodup.getElem_inj_iff hnd).mp heq)
      rw [Function.update_noteq hne]
      exact ih (by omega) j hjlt

/-- C19: in a prime field of modulus `p > 1`, `get_field_element_from_bits`
returns the sum over `i` of `b_i * 2^i` (as a field element), `b_i` being the
bit stored for the variable at index `i`; and for pairwise-distinct variables
and a field element `r` with representative below `2^n`, it returns `r` after
`fill_with_bits_of_field_element(pb, r)`. -/
theorem get_field_element_from_bits_spec (p : Nat) (hp : 1 < p) (assertions : Bool)
    (self : List blueprint_variable) :
    (∀ pb : blueprint,
        (∀ i, i < self.length → pb.val self[i]! = 0 ∨ pb.val self[i]! = 1) →
        blueprint_variable_vector.get_field_element_from_bits p assertions self pb
          = some ((∑ i in Finset.range self.length, pb.val self[i]! * 2 ^ i) % p))
      ∧ (self.Nodup → ∀ (pb : blueprint) (r : Nat), r < p → r < 2 ^ self.length →
          blueprint_variable_vector.get_field_element_from_bits p assertions self
              (blueprint_variable_vector.fill_with_bits_of_field_element p self pb r)
            = some r) := by
  have hgen : ∀ pb : blueprint,
      (∀ i, i < self.length → pb.val self[i]! = 0 ∨ pb.val self[i]! = 1) →
      blueprint_variable_vector.get_field_element_from_bits p assertions self pb
        = some ((∑ i in Finset.range self.length, pb.val self[i]! * 2 ^ i) % p) := by
    intro pb hbits
    have h := get_field_element_from_bits_loop p hp assertions self pb hbits self.length
      (Nat.le_refl _)
    simpa [blueprint_variable_vector.get_field_element_from_bits] using h
  refine ⟨hgen, ?_⟩
  intro hnd pb r hrp hrn
  have h1 : fp_value p 1 = 1 := by simp [fp_value, Nat.mod_eq_of_lt hp]
  have h0 : fp_value p 0 = 0 := by simp [fp_value]
  have hfill : ∀ j, j < self.length →
      (blueprint_variable_vector.fill_with_bits_of_field_element p self pb r).val self[j]!
        = if Nat.testBit r j then 1 else 0 := by
    intro j hj
    have h := fill_with_bits_of_field_element_loop p self hnd pb r self.length (Nat.le_refl _) j hj
    simpa [blueprint_variable_vector.fill_with_bits_of_field_element, bit_test, h0, h1] using h
  rw [hgen _ (by
    intro i hi
    rw [hfill i hi]
    by_cases hb : Nat.testBit r i <;> simp [hb])]
  have hsum : (∑ i in Finset.range self.length,
      (blueprint_variable_vector.fill_with_bits_of_field_element p self pb r).val self[i]!
        * 2 ^ i)
      = ∑ i in Finset.range self.length, (if Nat.testBit r i then 1 else 0) * 2 ^ i := by
    apply Finset.sum_congr rfl
    intro i hi
    rw [hfill i (Finset.mem_range.mp hi)]
  rw [hsum, sum_bits_eq_mod, Nat.mod_eq_of_lt hrn, Nat.mod_eq_of_lt hrp]

/-- Witness for C19: modulus 7, three distinct variables, `r = 5`. -/
theorem get_field_element_from_bits_spec_witness :
    blueprint_variable_vector.get_field_element_from_bits 7 true [⟨3⟩, ⟨5⟩, ⟨9⟩]
        (blueprint_variable_vector.fill_with_bits_of_field_element 7 [⟨3⟩, ⟨5⟩, ⟨9⟩]
          ⟨fun _ => 0, fun _ => 0⟩ 5)
      = some 5 :=
  (get_field_element_from_bits_spec 7 (by decide) true [⟨3⟩, ⟨5⟩, ⟨9⟩]).2 (by decide)
    ⟨fun _ => 0, fun _ => 0⟩ 5 (by decide) (by decide)

/-! ### The padding constructor on an oversized `partial_bits` -/

theorem pad_loop_running (digest_size : Nat) (padding : blueprint_variable) (fuel : Nat) :
    ∀ bits : List blueprint_variable, digest_size < bits.length →
      digest_variable.pad_loop digest_size padding fuel bits = none := by
  induction fuel with
  | zero =>
    intro bits hlt
    have hne : bits.length ≠ digest_size := by omega
    simp [digest_variable.pad_loop, hne]
  | succ fuel ih =>
    intro bits hlt
    have hne : bits.length ≠ digest_size := by omega
    have hstep := ih (bits ++ [padding]) (by simp; omega)
    simp [digest_variable.pad_loop, hne, hstep]

/-- C21: the assertion of the padding constructor reads the size of the
member `bits`, still empty at that point, so it fails on no input; for
`partial_bits.size() > digest_size` the constructor passes it, enters the
padding loop with `bits` longer than `digest_size` and is still running
after any number of iterations (two partial bits, digest size one: still
running after 50 iterations, with assertions compiled in). -/
theorem padded_oversized_never_returns :
    (∀ (assertions : Bool) (fuel digest_size : Nat) (partial_bits : List blueprint_variable)
        (padding : blueprint_variable),
        digest_variable.padded assertions fuel digest_size partial_bits padding
          ≠ outcome.assertion_failed)
      ∧ (∀ (assertions : Bool) (fuel digest_size : Nat) (partial_bits : List blueprint_variable)
          (padding : blueprint_variable), digest_size < partial_bits.length →
          digest_variable.padded assertions fuel digest_size partial_bits padding
            = outcome.running)
      ∧ digest_variable.padded true 50 1 [⟨4⟩, ⟨8⟩] ⟨2⟩ = outcome.running := by
  refine ⟨?_, ?_, by decide⟩
  · intro assertions fuel digest_size partial_bits padding
    simp only [digest_variable.padded, List.length_nil, Nat.zero_le, decide_True, Bool.not_true,
      Bool.and_false, Bool.false_eq_true, if_false]
    cases digest_variable.pad_loop digest_size padding fuel partial_bits <;> simp
  · intro assertions fuel digest_size partial_bits padding hlt
    simp [digest_variable.padded, pad_loop_running digest_size padding fuel partial_bits hlt]

end nil.crypto3.zk.snark
